import Mathlib

/-!
Shallow embedding of the maze-solving strategy layer of the micromouse robot
(`src/micromouse_main/src/strategy/strategy.cpp`, with constants from
`src/micromouse_main/src/settings.h` and the pose record from
`src/micromouse_main/src/localization/gaussian_location.h`), together with
proofs of the spec-level properties of the flood fill, the next-cell selector,
the coordinate conversions and the strategy orchestrator.

C `double` values (wall probabilities, pose coordinates) are modelled as `ℚ`;
C `int` values as `ℤ`.  The global 2-D arrays `values` and `discovered` are
modelled as total functions `ℤ → ℤ → _` updated pointwise; the strategy is a
pure function that takes the pre-call contents of its global state and returns
the post-call contents.
-/

namespace Micromouse

/-! ## Constants, from `settings.h` -/

def MAZE_WIDTH : Int := 16
def MAZE_HEIGHT : Int := 16
def WALL_THICKNESS : ℚ := 12
def CELL_LENGTH : ℚ := 168
def GOAL_CELL_X : Int := 7
def GOAL_CELL_Y : Int := 7
/-- `WALL_THRESHOLD` is `0.5`; stated as a normal-form rational so that the
kernel can evaluate comparisons against it (`WALL_THRESHOLD_eq` certifies the
value). -/
def WALL_THRESHOLD : ℚ := ⟨1, 2, by decide, Nat.coprime_one_left 2⟩
def MAX_VALUE : Int := 999

theorem WALL_THRESHOLD_eq : WALL_THRESHOLD = 1/2 := by
  rw [WALL_THRESHOLD, Rat.mk'_eq_divInt, Rat.divInt_eq_div]; norm_num

/-! ## Cells -/

/-- Embeds `cell_t` from `strategy.cpp`: a pair of `int` coordinates. -/
@[ext] structure cell_t where
  x : Int
  y : Int
deriving DecidableEq, Repr

/-- Embeds the macro `IS_CELL_OUT_OF_BOUNDS` from `strategy.cpp`. -/
def IS_CELL_OUT_OF_BOUNDS (cell : cell_t) : Prop :=
  cell.x < 0 ∨ MAZE_WIDTH ≤ cell.x ∨ cell.y < 0 ∨ MAZE_HEIGHT ≤ cell.y

instance : DecidablePred IS_CELL_OUT_OF_BOUNDS := fun c => by
  unfold IS_CELL_OUT_OF_BOUNDS; infer_instance

/-- A cell is inside the `MAZE_WIDTH × MAZE_HEIGHT` grid. -/
def inGrid (c : cell_t) : Prop :=
  0 ≤ c.x ∧ c.x < MAZE_WIDTH ∧ 0 ≤ c.y ∧ c.y < MAZE_HEIGHT

instance : DecidablePred inGrid := fun c => by
  unfold inGrid; infer_instance

/-- Coordinate-pair form of `inGrid`, for the raw array indices. -/
def inGridXY (x y : Int) : Prop :=
  0 ≤ x ∧ x < MAZE_WIDTH ∧ 0 ≤ y ∧ y < MAZE_HEIGHT

instance : ∀ x y, Decidable (inGridXY x y) := fun x y => by
  unfold inGridXY; infer_instance

theorem inGrid_iff_not_oob (c : cell_t) : inGrid c ↔ ¬ IS_CELL_OUT_OF_BOUNDS c := by
  unfold inGrid IS_CELL_OUT_OF_BOUNDS; omega

theorem inGrid_xy (c : cell_t) : inGrid c ↔ inGridXY c.x c.y := Iff.rfl

/-- The global `goal_cell` of `strategy.cpp`. -/
def goal_cell : cell_t := { x := GOAL_CELL_X, y := GOAL_CELL_Y }

/-! ## Pose record

`strategy.cpp` and `movement.cpp` access a `gaussian_location_t` through the
fields `x_mu`, `y_mu`, `theta_mu` (and the localization subsystem also keeps a
variance per axis, cf. `gaussian_location.h`, whose `gaussian_t` pairs a `mean`
with a `sigma2`).  The `types.h` that declares the record used by
`strategy.cpp` is not under `src/`; the field layout below follows the fields
those sources read and write: a mean and a variance for x, y and theta. -/
structure gaussian_location_t where
  x_mu : ℚ
  x_sigma2 : ℚ
  y_mu : ℚ
  y_sigma2 : ℚ
  theta_mu : ℚ
  theta_sigma2 : ℚ
deriving DecidableEq, Repr

/-! ## Maze model

Modelled from the spec: `types.h`, which declares `probabilistic_maze_t` and
its walls, is not under `src/`.  Per the spec's data model, each wall record
holds a probability `exists` that the wall is present, and every interior wall
is shared by the two adjacent cells (single source of truth); the spec's design
notes suggest realizing the sharing by two flat wall arrays indexed so that the
two sides of one wall read the same entry.  `hWalls x y` is the wall on the
north side of cell `(x, y)` (so also the south side of `(x, y-1)`);
`vWalls x y` is the wall on the west side of cell `(x, y)` (so also the east
side of `(x-1, y)`).  The stored rational is the wall's `exists` probability. -/
structure probabilistic_maze_t where
  hWalls : Int → Int → ℚ
  vWalls : Int → Int → ℚ

/-- The read `maze->cells[x][y].north->exists`. -/
def northWallExists (m : probabilistic_maze_t) (x y : Int) : ℚ := m.hWalls x y

/-- The read `maze->cells[x][y].south->exists`. -/
def southWallExists (m : probabilistic_maze_t) (x y : Int) : ℚ := m.hWalls x (y + 1)

/-- The read `maze->cells[x][y].east->exists`. -/
def eastWallExists (m : probabilistic_maze_t) (x y : Int) : ℚ := m.vWalls (x + 1) y

/-- The read `maze->cells[x][y].west->exists`. -/
def westWallExists (m : probabilistic_maze_t) (x y : Int) : ℚ := m.vWalls x y

/-- Modelled from the spec: the maze construction pins every border wall at
probability 1, i.e. at least `WALL_THRESHOLD` ("Border walls ... are
initialized with `exists = 1` and never lowered"). -/
def bordersClosed (m : probabilistic_maze_t) : Prop :=
  (∀ x, 0 ≤ x → x < MAZE_WIDTH →
    WALL_THRESHOLD ≤ m.hWalls x 0 ∧ WALL_THRESHOLD ≤ m.hWalls x MAZE_HEIGHT) ∧
  (∀ y, 0 ≤ y → y < MAZE_HEIGHT →
    WALL_THRESHOLD ≤ m.vWalls 0 y ∧ WALL_THRESHOLD ≤ m.vWalls MAZE_WIDTH y)

/-! ## Coordinate conversions, from `strategy.cpp` -/

/-- The C cast `(int)` applied to a `double`: truncation toward zero. -/
def truncToInt (q : ℚ) : Int := if q < 0 then ⌈q⌉ else ⌊q⌋

/-- Embeds `convertLocationToCell`: floor-divides the x/y means by the cell
pitch `WALL_THICKNESS + CELL_LENGTH`. -/
def convertLocationToCell (location : gaussian_location_t) : cell_t :=
  { x := truncToInt (location.x_mu / (WALL_THICKNESS + CELL_LENGTH)),
    y := truncToInt (location.y_mu / (WALL_THICKNESS + CELL_LENGTH)) }

/-- Embeds `convertCellToLocation`: writes the cell-center coordinates into the
`x_mu` and `y_mu` fields of `to_return`, leaving every other field unchanged. -/
def convertCellToLocation (cell : cell_t) (to_return : gaussian_location_t) :
    gaussian_location_t :=
  { to_return with
    x_mu := cell.x * (WALL_THICKNESS + CELL_LENGTH) + CELL_LENGTH / 2,
    y_mu := cell.y * (WALL_THICKNESS + CELL_LENGTH) + CELL_LENGTH / 2 }

/-! ## Flood fill, from `strategy.cpp`

The queue of `util/queue.h` is not under `src/`; modelled from the spec as a
FIFO queue ("a fixed-capacity ring buffer suffices" of capacity
`MAZE_WIDTH * MAZE_HEIGHT`, which the frontier never exceeds): `push` appends
at the tail, `pop` takes the head.  The loop state gathers the global arrays
`values` and `discovered`, the two queues and the running level `value`. -/
structure FloodState where
  values : Int → Int → Int
  discovered : Int → Int → Bool
  q : List cell_t
  next_q : List cell_t
  value : Int

/-- Pointwise update of a 2-D `int` array. -/
def setValue (f : Int → Int → Int) (x y : Int) (v : Int) : Int → Int → Int :=
  fun a b => if a = x ∧ b = y then v else f a b

/-- Pointwise update of a 2-D `bool` array. -/
def setDisc (f : Int → Int → Bool) (x y : Int) (v : Bool) : Int → Int → Bool :=
  fun a b => if a = x ∧ b = y then v else f a b

/-- Embeds `resetValues`: writes `MAX_VALUE` to every in-grid entry of
`values` (the loops run over `0 ≤ x < MAZE_WIDTH`, `0 ≤ y < MAZE_HEIGHT`). -/
def resetValues (values : Int → Int → Int) : Int → Int → Int :=
  fun x y => if inGridXY x y then MAX_VALUE else values x y

/-- Embeds `setAllDiscoveredToFalse`: writes `false` to every in-grid entry. -/
def setAllDiscoveredToFalse (discovered : Int → Int → Bool) : Int → Int → Bool :=
  fun x y => if inGridXY x y then false else discovered x y

/-- Embeds one `Check <direction>` block of `floodfill`: if `next` is in
bounds, not yet discovered, and the wall toward it has `exists` below
`WALL_THRESHOLD`, mark it discovered and push it on `next_q`. -/
def checkNeighbor (s : FloodState) (next : cell_t) (wall : ℚ) : FloodState :=
  if ¬ IS_CELL_OUT_OF_BOUNDS next then
    if s.discovered next.x next.y = false ∧ wall < WALL_THRESHOLD then
      { s with discovered := setDisc s.discovered next.x next.y true,
               next_q := s.next_q ++ [next] }
    else s
  else s

/-- Embeds the body of the `floodfill` loop after the pop: skip an
out-of-bounds cell, otherwise record the current level in `values` and try the
four neighbors in the source's order North, East, South, West, each through the
wall of `cell` facing that direction. -/
def processCell (m : probabilistic_maze_t) (s : FloodState) (cell : cell_t) :
    FloodState :=
  if IS_CELL_OUT_OF_BOUNDS cell then s
  else
    let s1 := { s with values := setValue s.values cell.x cell.y s.value }
    let s2 := checkNeighbor s1 ⟨cell.x, cell.y - 1⟩ (northWallExists m cell.x cell.y)
    let s3 := checkNeighbor s2 ⟨cell.x + 1, cell.y⟩ (eastWallExists m cell.x cell.y)
    let s4 := checkNeighbor s3 ⟨cell.x, cell.y + 1⟩ (southWallExists m cell.x cell.y)
    checkNeighbor s4 ⟨cell.x - 1, cell.y⟩ (westWallExists m cell.x cell.y)

/-- Embeds one iteration of the `floodfill` while-loop: when the current queue
is empty, swap it with `next_q` and increment the level; then pop one cell and
process it. -/
def floodIter (m : probabilistic_maze_t) (s0 : FloodState) : FloodState :=
  let s := if s0.q = [] then { s0 with q := s0.next_q, next_q := [], value := s0.value + 1 }
           else s0
  match s.q with
  | [] => s
  | cell :: rest => processCell m { s with q := rest } cell

/-- The `floodfill` while-loop, driven by a fuel counter.  The C loop runs
until both queues are empty; `floodLoopFuel_measure_big` below proves the fuel
`FLOOD_FUEL` used by `floodfill` is never exhausted, so the fuel form agrees
with the while-loop. -/
def floodLoopFuel (m : probabilistic_maze_t) : Nat → FloodState → FloodState
  | 0, s => s
  | fuel + 1, s =>
    if s.q = [] ∧ s.next_q = [] then s
    else floodLoopFuel m fuel (floodIter m s)

/-- An upper bound on the number of iterations of the `floodfill` loop:
each iteration pops one cell, and at most `MAZE_WIDTH * MAZE_HEIGHT` cells are
ever pushed (one per first discovery, plus the initial cell). -/
def FLOOD_FUEL : Nat := 2 * 256 + 1

/-- Embeds `floodfill(maze_state, cell, value)`.  The extra arguments `values0`
and `discovered0` are the pre-call contents of the global arrays `values` and
`discovered`; the function resets their in-grid entries before the search, as
the source does. -/
def floodfill (m : probabilistic_maze_t) (cell : cell_t) (value : Int)
    (values0 : Int → Int → Int) (discovered0 : Int → Int → Bool) : FloodState :=
  let values := resetValues values0
  let discovered := setAllDiscoveredToFalse discovered0
  let discovered := setDisc discovered cell.x cell.y true
  floodLoopFuel m FLOOD_FUEL
    { values := values, discovered := discovered, q := [cell], next_q := [], value := value }

/-! ## Next-cell selector, from `strategy.cpp` -/

/-- Embeds `chooseNextCell`.  `values` is the global distance array that the
function indexes (in C, reads at out-of-grid indices hit whatever memory lies
at the corresponding offset; the parameter models the whole addressable
content, so each read is this function applied to the indices the source
computes).  Each direction test reads `values` first and checks the wall
second, exactly as the source's `&&` does, and a direction is taken only when
its value is strictly below the running `lowest_value`. -/
def chooseNextCell (values : Int → Int → Int) (robot_maze_state : probabilistic_maze_t)
    (robot_cell : cell_t) : cell_t :=
  let x := robot_cell.x
  let y := robot_cell.y
  if robot_cell.x = goal_cell.x ∧ robot_cell.y = goal_cell.y then robot_cell
  else
    let lowest0 : Int := MAX_VALUE
    let next0 : cell_t := robot_cell
    let lowest1 := if values x (y-1) < lowest0 ∧ northWallExists robot_maze_state x y < WALL_THRESHOLD
                   then values x (y-1) else lowest0
    let next1 := if values x (y-1) < lowest0 ∧ northWallExists robot_maze_state x y < WALL_THRESHOLD
                 then (⟨x, y-1⟩ : cell_t) else next0
    let lowest2 := if values (x+1) y < lowest1 ∧ eastWallExists robot_maze_state x y < WALL_THRESHOLD
                   then values (x+1) y else lowest1
    let next2 := if values (x+1) y < lowest1 ∧ eastWallExists robot_maze_state x y < WALL_THRESHOLD
                 then (⟨x+1, y⟩ : cell_t) else next1
    let lowest3 := if values x (y+1) < lowest2 ∧ southWallExists robot_maze_state x y < WALL_THRESHOLD
                   then values x (y+1) else lowest2
    let next3 := if values x (y+1) < lowest2 ∧ southWallExists robot_maze_state x y < WALL_THRESHOLD
                 then (⟨x, y+1⟩ : cell_t) else next2
    let next4 := if values (x-1) y < lowest3 ∧ westWallExists robot_maze_state x y < WALL_THRESHOLD
                 then (⟨x-1, y⟩ : cell_t) else next3
    next4

/-- An indexing of the `values` array that makes the bounds visible: `some`
for an in-grid index, `none` for an out-of-bounds one. -/
def readValuesChecked (values : Int → Int → Int) (x y : Int) : Option Int :=
  if inGridXY x y then some (values x y) else none

/-- `chooseNextCell` in a total embedding where every indexing of the distance
array goes through `readValuesChecked`: the reads are the four reads the C code
performs (each is the left operand of an `&&`, so it is evaluated regardless of
the wall test), and the result is `none` exactly when some read is out of
bounds. -/
def chooseNextCellChecked (values : Int → Int → Int)
    (robot_maze_state : probabilistic_maze_t) (robot_cell : cell_t) : Option cell_t :=
  let x := robot_cell.x
  let y := robot_cell.y
  if robot_cell.x = goal_cell.x ∧ robot_cell.y = goal_cell.y then some robot_cell
  else
    (readValuesChecked values x (y-1)).bind fun vN =>
    (readValuesChecked values (x+1) y).bind fun vE =>
    (readValuesChecked values x (y+1)).bind fun vS =>
    (readValuesChecked values (x-1) y).bind fun vW =>
    let lowest0 : Int := MAX_VALUE
    let next0 : cell_t := robot_cell
    let lowest1 := if vN < lowest0 ∧ northWallExists robot_maze_state x y < WALL_THRESHOLD
                   then vN else lowest0
    let next1 := if vN < lowest0 ∧ northWallExists robot_maze_state x y < WALL_THRESHOLD
                 then (⟨x, y-1⟩ : cell_t) else next0
    let lowest2 := if vE < lowest1 ∧ eastWallExists robot_maze_state x y < WALL_THRESHOLD
                   then vE else lowest1
    let next2 := if vE < lowest1 ∧ eastWallExists robot_maze_state x y < WALL_THRESHOLD
                 then (⟨x+1, y⟩ : cell_t) else next1
    let lowest3 := if vS < lowest2 ∧ southWallExists robot_maze_state x y < WALL_THRESHOLD
                   then vS else lowest2
    let next3 := if vS < lowest2 ∧ southWallExists robot_maze_state x y < WALL_THRESHOLD
                 then (⟨x, y+1⟩ : cell_t) else next2
    let next4 := if vW < lowest3 ∧ westWallExists robot_maze_state x y < WALL_THRESHOLD
                 then (⟨x-1, y⟩ : cell_t) else next3
    some next4

/-! ## Strategy orchestrator, from `strategy.cpp` -/

/-- The outputs of one `strategy` call: the written-back `next_location`, the
new contents of the static `prev_next_cell`, the two LED status signals
(`toggleLED(2)`: the oscillation hint; `setHighLED(1)`: the arrival hint), and
the new contents of the global `values`/`discovered` arrays. -/
structure StrategyResult where
  next_location : gaussian_location_t
  prev_next_cell : cell_t
  led2_toggled : Bool
  led1_set_high : Bool
  values : Int → Int → Int
  discovered : Int → Int → Bool

/-- Embeds `strategy(robot_location, maze_state, next_location)`.
`prev_next_cell0` is the pre-call contents of the static `prev_next_cell`
(zero-initialized before the first call), and `values0`/`discovered0` the
pre-call contents of the global arrays. -/
def strategy (robot_location : gaussian_location_t) (maze_state : probabilistic_maze_t)
    (next_location : gaussian_location_t) (prev_next_cell0 : cell_t)
    (values0 : Int → Int → Int) (discovered0 : Int → Int → Bool) : StrategyResult :=
  let robot_cell := convertLocationToCell robot_location
  let ff := floodfill maze_state goal_cell 0 values0 discovered0
  let next_cell := chooseNextCell ff.values maze_state robot_cell
  let osc := prev_next_cell0.x = next_cell.x ∧ prev_next_cell0.y = next_cell.y
  let arr := osc ∧ robot_cell.x = next_cell.x ∧ robot_cell.y = next_cell.y
  { next_location := convertCellToLocation next_cell next_location,
    prev_next_cell := next_cell,
    led2_toggled := decide osc,
    led1_set_high := decide arr,
    values := ff.values,
    discovered := ff.discovered }

/-! ## Spec-side path model

Formalizes the spec's "connected through walls whose `exists` probability is
below `WALL_THRESHOLD`" and "minimum hop count".  A step goes from `a` to one
of its four grid neighbors `b` through the wall of `a` facing `b`; since walls
are shared, the relation is symmetric (`adjacent_symm`). -/

/-- One hop: `b` is a grid neighbor of `a` and the wall between them is open
(probability strictly below `WALL_THRESHOLD`). -/
def adjacent (m : probabilistic_maze_t) (a b : cell_t) : Prop :=
  inGrid a ∧ inGrid b ∧
  ((b = ⟨a.x, a.y - 1⟩ ∧ northWallExists m a.x a.y < WALL_THRESHOLD) ∨
   (b = ⟨a.x + 1, a.y⟩ ∧ eastWallExists m a.x a.y < WALL_THRESHOLD) ∨
   (b = ⟨a.x, a.y + 1⟩ ∧ southWallExists m a.x a.y < WALL_THRESHOLD) ∨
   (b = ⟨a.x - 1, a.y⟩ ∧ westWallExists m a.x a.y < WALL_THRESHOLD))

instance (m : probabilistic_maze_t) (a b : cell_t) : Decidable (adjacent m a b) := by
  unfold adjacent; infer_instance

/-- `reachN m n a b`: there is a path of exactly `n` open-wall hops from `a`
to `b`. -/
def reachN (m : probabilistic_maze_t) : Nat → cell_t → cell_t → Prop
  | 0, a, b => a = b
  | n + 1, a, b => ∃ c, reachN m n a c ∧ adjacent m c b

/-- `a` and `b` are connected through open walls. -/
def connected (m : probabilistic_maze_t) (a b : cell_t) : Prop :=
  ∃ n, reachN m n a b

/-- `n` is the minimum hop count from `a` to `b` through open walls. -/
def distIs (m : probabilistic_maze_t) (a b : cell_t) (n : Nat) : Prop :=
  reachN m n a b ∧ ∀ k, reachN m k a b → n ≤ k

/-! ### Elementary facts about walls, adjacency and distance -/

theorem adjacent_symm {m : probabilistic_maze_t} {a b : cell_t}
    (h : adjacent m a b) : adjacent m b a := by
  obtain ⟨ha, hb, hdir⟩ := h
  refine ⟨hb, ha, ?_⟩
  rcases hdir with ⟨he, hw⟩ | ⟨he, hw⟩ | ⟨he, hw⟩ | ⟨he, hw⟩
  · -- b is north of a, so a is south of b
    subst he
    refine Or.inr (Or.inr (Or.inl ⟨by ext <;> simp, ?_⟩))
    simpa [southWallExists, northWallExists] using hw
  · -- b is east of a, so a is west of b
    subst he
    refine Or.inr (Or.inr (Or.inr ⟨by ext <;> simp, ?_⟩))
    simpa [westWallExists, eastWallExists] using hw
  · -- b is south of a, so a is north of b
    subst he
    refine Or.inl ⟨by ext <;> simp, ?_⟩
    simpa [northWallExists, southWallExists] using hw
  · -- b is west of a, so a is east of b
    subst he
    refine Or.inr (Or.inl ⟨by ext <;> simp, ?_⟩)
    simpa [eastWallExists, westWallExists] using hw

theorem adjacent_inGrid_left {m : probabilistic_maze_t} {a b : cell_t}
    (h : adjacent m a b) : inGrid a := h.1

theorem adjacent_inGrid_right {m : probabilistic_maze_t} {a b : cell_t}
    (h : adjacent m a b) : inGrid b := h.2.1

theorem reachN_inGrid {m : probabilistic_maze_t} {g c : cell_t} {n : Nat}
    (hg : inGrid g) (h : reachN m n g c) : inGrid c := by
  induction n generalizing c with
  | zero => exact h ▸ hg
  | succ n ih => obtain ⟨d, _, hdc⟩ := h; exact adjacent_inGrid_right hdc

theorem reachN_zero_iff {m : probabilistic_maze_t} {g c : cell_t} :
    reachN m 0 g c ↔ g = c := Iff.rfl

theorem connected_self (m : probabilistic_maze_t) (g : cell_t) : connected m g g :=
  ⟨0, rfl⟩

theorem distIs_unique {m : probabilistic_maze_t} {a b : cell_t} {n k : Nat}
    (hn : distIs m a b n) (hk : distIs m a b k) : n = k :=
  le_antisymm (hn.2 k hk.1) (hk.2 n hn.1)

theorem distIs_of_connected {m : probabilistic_maze_t} {a b : cell_t}
    (h : connected m a b) : ∃ n, distIs m a b n := by
  classical
  refine ⟨sInf {n | reachN m n a b}, Nat.sInf_mem h, fun k hk => Nat.sInf_le hk⟩

theorem distIs_zero_iff {m : probabilistic_maze_t} {g c : cell_t} :
    distIs m g c 0 ↔ g = c := by
  constructor
  · exact fun h => h.1
  · rintro rfl; exact ⟨rfl, fun k _ => Nat.zero_le k⟩

theorem distIs_goal (m : probabilistic_maze_t) (g : cell_t) : distIs m g g 0 :=
  distIs_zero_iff.2 rfl

/-- The minimality part of `distIs` transfers along one hop: a neighbor of a
cell at distance `d` is at distance at least `d - 1`, i.e. `d ≤ dn + 1`. -/
theorem distIs_le_succ_of_adjacent {m : probabilistic_maze_t} {g c b : cell_t}
    {dc dn : Nat} (hc : distIs m g c dc) (hb : distIs m g b dn)
    (hadj : adjacent m b c) : dc ≤ dn + 1 :=
  hc.2 (dn + 1) ⟨b, hb.1, hadj⟩

/-- Every cell at distance `n + 1` has a predecessor at distance exactly `n`. -/
theorem distIs_pred {m : probabilistic_maze_t} {g c : cell_t} {n : Nat}
    (h : distIs m g c (n + 1)) : ∃ p, distIs m g p n ∧ adjacent m p c := by
  obtain ⟨⟨p, hp, hpc⟩, hmin⟩ := h
  obtain ⟨k, hk⟩ := distIs_of_connected ⟨n, hp⟩
  have hkn : k ≤ n := hk.2 n hp
  have hnk : n ≤ k := by
    have := hmin (k + 1) ⟨p, hk.1, hpc⟩
    omega
  have : k = n := le_antisymm hkn hnk
  subst this
  exact ⟨p, hk, hpc⟩

/-- Along a shortest path every intermediate distance is attained. -/
theorem distIs_levels {m : probabilistic_maze_t} {g c : cell_t} {n : Nat}
    (h : distIs m g c n) : ∀ k, k ≤ n → ∃ p, distIs m g p k := by
  induction n generalizing c with
  | zero => intro k hk; interval_cases k; exact ⟨c, h⟩
  | succ n ih =>
    intro k hk
    obtain ⟨p, hp, _⟩ := distIs_pred h
    rcases Nat.lt_or_ge k (n + 1) with hlt | hge
    · exact ih hp k (by omega)
    · have hkeq : k = n + 1 := by omega
      exact ⟨c, hkeq ▸ h⟩

/-- The in-grid coordinate pairs, as a finite set. -/
def gridFinset : Finset (Int × Int) :=
  Finset.Icc 0 (MAZE_WIDTH - 1) ×ˢ Finset.Icc 0 (MAZE_HEIGHT - 1)

theorem mem_gridFinset {c : cell_t} (h : inGrid c) : (c.x, c.y) ∈ gridFinset := by
  obtain ⟨h1, h2, h3, h4⟩ := h
  simp only [gridFinset, Finset.mem_product, Finset.mem_Icc]
  constructor <;> constructor <;> omega

theorem gridFinset_card : gridFinset.card = 256 := by
  rw [gridFinset, Finset.card_product]
  rw [Int.card_Icc, Int.card_Icc]
  rfl

/-- Hop distances are below the number of cells in the grid: the distance
levels `0, 1, …, n` are attained by pairwise distinct in-grid cells. -/
theorem distIs_lt_cells {m : probabilistic_maze_t} {g c : cell_t} {n : Nat}
    (hg : inGrid g) (h : distIs m g c n) : n < 256 := by
  classical
  by_contra hge
  push_neg at hge
  have hlev : ∀ k : Nat, k ≤ n → ∃ p, distIs m g p k := distIs_levels h
  choose f hf using fun (k : Fin (n + 1)) => hlev k.1 (by omega)
  have hmaps : ∀ k ∈ (Finset.univ : Finset (Fin (n + 1))),
      (Prod.mk (f k).x (f k).y) ∈ gridFinset := by
    intro k _
    exact mem_gridFinset (reachN_inGrid hg (hf k).1)
  have hcard : gridFinset.card < (Finset.univ : Finset (Fin (n + 1))).card := by
    rw [gridFinset_card, Finset.card_univ, Fintype.card_fin]; omega
  obtain ⟨k1, -, k2, -, hne, heq⟩ :=
    Finset.exists_ne_map_eq_of_card_lt_of_maps_to hcard hmaps
  have hfeq : f k1 = f k2 := by
    have h1 := congrArg Prod.fst heq
    have h2 := congrArg Prod.snd heq
    simp only at h1 h2
    ext <;> assumption
  have : (k1 : Nat) = (k2 : Nat) := distIs_unique (hf k1) (hfeq ▸ hf k2)
  exact hne (Fin.ext this)

/-! ## Concrete inputs used by witnesses and counterexamples -/

/-- The empty 16×16 maze of scenario S1: every interior wall has `exists = 0`,
every border wall (and every wall index outside the grid) has `exists = 1`. -/
def emptyMaze : probabilistic_maze_t :=
  { hWalls := fun x y => if 0 ≤ x ∧ x ≤ 15 ∧ 1 ≤ y ∧ y ≤ 15 then 0 else 1,
    vWalls := fun x y => if 1 ≤ x ∧ x ≤ 15 ∧ 0 ≤ y ∧ y ≤ 15 then 0 else 1 }

/-- Pre-call contents of the global `values` array: all `MAX_VALUE`. -/
def z999 : Int → Int → Int := fun _ _ => 999

/-- Pre-call contents of the global `discovered` array: all `false`. -/
def zfalse : Int → Int → Bool := fun _ _ => false

/-- The row-major memory layout of the C global `int values[16][16]`: a read
`values[x][y]` compiles to the flat word at offset `16*x + y` from the start of
the array, so for offsets inside the array an out-of-range `y` aliases an entry
of a neighboring row (for example `values[1][-1]` is the word at offset 15,
which is `values[0][15]`).  Offsets outside the array read unrelated memory,
modelled here as the reset value `MAX_VALUE`. -/
def flatMemory (vals : Int → Int → Int) : Int → Int → Int := fun x y =>
  let i := 16 * x + y
  if 0 ≤ i ∧ i < 256 then vals (i / 16) (i % 16) else MAX_VALUE

/-! ## Congruence of the flood fill

The loop reads the `discovered` array only at in-bounds indices (every read is
guarded by `IS_CELL_OUT_OF_BOUNDS`), never reads `values`, and consults wall
probabilities only through comparisons with `WALL_THRESHOLD`.  Hence the
in-grid part of the resulting state depends only on which walls are open and
on the queue/level state, not on the pre-call array contents. -/

/-- Two flood states agree on everything the loop can observe: the queues, the
level, and the in-grid parts of the two arrays. -/
def StAgree (s t : FloodState) : Prop :=
  s.q = t.q ∧ s.next_q = t.next_q ∧ s.value = t.value ∧
  (∀ x y, inGridXY x y → s.values x y = t.values x y) ∧
  (∀ x y, inGridXY x y → s.discovered x y = t.discovered x y)

/-- Two mazes open exactly the same walls. -/
def wallsOpenIff (m1 m2 : probabilistic_maze_t) : Prop :=
  ∀ x y, (m1.hWalls x y < WALL_THRESHOLD ↔ m2.hWalls x y < WALL_THRESHOLD) ∧
         (m1.vWalls x y < WALL_THRESHOLD ↔ m2.vWalls x y < WALL_THRESHOLD)

/-! ### Equation lemmas for the loop pieces -/

theorem checkNeighbor_oob {s : FloodState} {nb : cell_t} {w : ℚ}
    (h : IS_CELL_OUT_OF_BOUNDS nb) : checkNeighbor s nb w = s := by
  unfold checkNeighbor
  rw [if_neg (by simpa using h)]

theorem checkNeighbor_skip {s : FloodState} {nb : cell_t} {w : ℚ}
    (h : ¬ (s.discovered nb.x nb.y = false ∧ w < WALL_THRESHOLD)) :
    checkNeighbor s nb w = s := by
  unfold checkNeighbor
  by_cases hoob : IS_CELL_OUT_OF_BOUNDS nb
  · rw [if_neg (by simpa using hoob)]
  · rw [if_pos (by simpa using hoob), if_neg h]

theorem checkNeighbor_push {s : FloodState} {nb : cell_t} {w : ℚ}
    (hoob : ¬ IS_CELL_OUT_OF_BOUNDS nb)
    (h : s.discovered nb.x nb.y = false ∧ w < WALL_THRESHOLD) :
    checkNeighbor s nb w =
      { s with discovered := setDisc s.discovered nb.x nb.y true,
               next_q := s.next_q ++ [nb] } := by
  unfold checkNeighbor
  rw [if_pos (by simpa using hoob), if_pos h]

theorem processCell_oob {m : probabilistic_maze_t} {s : FloodState} {c : cell_t}
    (h : IS_CELL_OUT_OF_BOUNDS c) : processCell m s c = s := by
  unfold processCell
  rw [if_pos h]

theorem processCell_in {m : probabilistic_maze_t} {s : FloodState} {c : cell_t}
    (h : ¬ IS_CELL_OUT_OF_BOUNDS c) :
    processCell m s c =
      checkNeighbor (checkNeighbor (checkNeighbor (checkNeighbor
        { s with values := setValue s.values c.x c.y s.value }
        ⟨c.x, c.y - 1⟩ (northWallExists m c.x c.y))
        ⟨c.x + 1, c.y⟩ (eastWallExists m c.x c.y))
        ⟨c.x, c.y + 1⟩ (southWallExists m c.x c.y))
        ⟨c.x - 1, c.y⟩ (westWallExists m c.x c.y) := by
  unfold processCell
  rw [if_neg h]

theorem floodIter_nil_nil {m : probabilistic_maze_t} {s : FloodState}
    (h1 : s.q = []) (h2 : s.next_q = []) :
    floodIter m s = { s with q := [], next_q := [], value := s.value + 1 } := by
  unfold floodIter
  rw [if_pos h1]
  simp only [h2]

theorem floodIter_swap {m : probabilistic_maze_t} {s : FloodState} {c : cell_t}
    {l : List cell_t} (h1 : s.q = []) (h2 : s.next_q = c :: l) :
    floodIter m s =
      processCell m { s with q := l, next_q := [], value := s.value + 1 } c := by
  unfold floodIter
  rw [if_pos h1]
  simp only [h2]

theorem floodIter_pop {m : probabilistic_maze_t} {s : FloodState} {c : cell_t}
    {l : List cell_t} (h : s.q = c :: l) :
    floodIter m s = processCell m { s with q := l } c := by
  unfold floodIter
  rw [if_neg (by simp [h])]
  simp only [h]

/-! ### The agreement proofs -/

theorem checkNeighbor_agree {s t : FloodState} {nb : cell_t} {w1 w2 : ℚ}
    (hst : StAgree s t) (hw : w1 < WALL_THRESHOLD ↔ w2 < WALL_THRESHOLD) :
    StAgree (checkNeighbor s nb w1) (checkNeighbor t nb w2) := by
  obtain ⟨hq, hnq, hv, hvals, hdisc⟩ := hst
  by_cases hoob : IS_CELL_OUT_OF_BOUNDS nb
  · rw [checkNeighbor_oob hoob, checkNeighbor_oob hoob]
    exact ⟨hq, hnq, hv, hvals, hdisc⟩
  · have hin : inGridXY nb.x nb.y := (inGrid_xy nb).1 ((inGrid_iff_not_oob nb).2 hoob)
    have hdnb : s.discovered nb.x nb.y = t.discovered nb.x nb.y := hdisc _ _ hin
    by_cases hcond : s.discovered nb.x nb.y = false ∧ w1 < WALL_THRESHOLD
    · have hcond2 : t.discovered nb.x nb.y = false ∧ w2 < WALL_THRESHOLD :=
        ⟨hdnb ▸ hcond.1, hw.1 hcond.2⟩
      rw [checkNeighbor_push hoob hcond, checkNeighbor_push hoob hcond2]
      refine ⟨hq, by rw [hnq], hv, hvals, ?_⟩
      intro x y hxy
      simp only [setDisc]
      split
      · rfl
      · exact hdisc x y hxy
    · have hcond2 : ¬ (t.discovered nb.x nb.y = false ∧ w2 < WALL_THRESHOLD) := by
        rw [← hdnb]
        intro hc
        exact hcond ⟨hc.1, hw.2 hc.2⟩
      rw [checkNeighbor_skip hcond, checkNeighbor_skip hcond2]
      exact ⟨hq, hnq, hv, hvals, hdisc⟩

theorem processCell_agree {m1 m2 : probabilistic_maze_t} {s t : FloodState}
    (hm : wallsOpenIff m1 m2) (hst : StAgree s t) (c : cell_t) :
    StAgree (processCell m1 s c) (processCell m2 t c) := by
  by_cases hoob : IS_CELL_OUT_OF_BOUNDS c
  · rw [processCell_oob hoob, processCell_oob hoob]; exact hst
  · rw [processCell_in hoob, processCell_in hoob]
    obtain ⟨hq, hnq, hv, hvals, hdisc⟩ := hst
    have hst1 : StAgree { s with values := setValue s.values c.x c.y s.value }
        { t with values := setValue t.values c.x c.y t.value } := by
      refine ⟨hq, hnq, hv, ?_, hdisc⟩
      intro x y hxy
      simp only [setValue]
      split
      · exact hv
      · exact hvals x y hxy
    exact checkNeighbor_agree
      (checkNeighbor_agree
        (checkNeighbor_agree
          (checkNeighbor_agree hst1 (hm c.x c.y).1)
          (hm (c.x + 1) c.y).2)
        (hm c.x (c.y + 1)).1)
      (hm c.x c.y).2

theorem floodIter_agree {m1 m2 : probabilistic_maze_t} {s t : FloodState}
    (hm : wallsOpenIff m1 m2) (hst : StAgree s t) :
    StAgree (floodIter m1 s) (floodIter m2 t) := by
  obtain ⟨hq, hnq, hv, hvals, hdisc⟩ := hst
  by_cases hqe : s.q = []
  · have hqe2 : t.q = [] := hq ▸ hqe
    cases hnqc : s.next_q with
    | nil =>
      have hnqc2 : t.next_q = [] := hnq ▸ hnqc
      rw [floodIter_nil_nil hqe hnqc, floodIter_nil_nil hqe2 hnqc2]
      refine ⟨rfl, rfl, ?_, hvals, hdisc⟩
      show s.value + 1 = t.value + 1
      rw [hv]
    | cons a l =>
      have hnqc2 : t.next_q = a :: l := hnq ▸ hnqc
      rw [floodIter_swap hqe hnqc, floodIter_swap hqe2 hnqc2]
      refine processCell_agree hm ?_ a
      refine ⟨rfl, rfl, ?_, hvals, hdisc⟩
      show s.value + 1 = t.value + 1
      rw [hv]
  · cases hqc : s.q with
    | nil => exact absurd hqc hqe
    | cons a l =>
      have hqc2 : t.q = a :: l := hq ▸ hqc
      rw [floodIter_pop hqc, floodIter_pop hqc2]
      refine processCell_agree hm ?_ a
      exact ⟨rfl, hnq, hv, hvals, hdisc⟩


theorem floodLoopFuel_agree {m1 m2 : probabilistic_maze_t}
    (hm : wallsOpenIff m1 m2) :
    ∀ (fuel : Nat) {s t : FloodState}, StAgree s t →
      StAgree (floodLoopFuel m1 fuel s) (floodLoopFuel m2 fuel t) := by
  intro fuel
  induction fuel with
  | zero => intro s t hst; exact hst
  | succ fuel ih =>
    intro s t hst
    have hq := hst.1
    have hnq := hst.2.1
    unfold floodLoopFuel
    by_cases hend : s.q = [] ∧ s.next_q = []
    · have hend2 : t.q = [] ∧ t.next_q = [] := ⟨hq ▸ hend.1, hnq ▸ hend.2⟩
      simp only [hend, hend2, if_pos, and_self]
      exact hst
    · have hend2 : ¬ (t.q = [] ∧ t.next_q = []) := by
        rw [← hq, ← hnq]; exact hend
      simp only [if_neg hend, if_neg hend2]
      exact ih (floodIter_agree hm hst)

/-- The in-grid distance field produced by `floodfill` does not depend on the
pre-call contents of the `values` and `discovered` arrays, and is the same for
any two mazes that open the same walls. -/
theorem floodfill_agree {m1 m2 : probabilistic_maze_t} (hm : wallsOpenIff m1 m2)
    (g : cell_t) (k : Int) (v0 v1 : Int → Int → Int) (d0 d1 : Int → Int → Bool) :
    StAgree (floodfill m1 g k v0 d0) (floodfill m2 g k v1 d1) := by
  apply floodLoopFuel_agree hm
  refine ⟨rfl, rfl, rfl, ?_, ?_⟩
  · intro x y hxy
    simp [resetValues, hxy]
  · intro x y hxy
    simp only [setDisc, setAllDiscoveredToFalse]
    split
    · rfl
    · simp [hxy]

theorem wallsOpenIff_refl (m : probabilistic_maze_t) : wallsOpenIff m m :=
  fun _ _ => ⟨Iff.rfl, Iff.rfl⟩

/-! ## Termination measure of the flood-fill loop

Each loop iteration pops one queue entry, and every push is guarded by the
`discovered` flag of an in-grid cell which the push sets, so
`2 * (number of undiscovered in-grid cells) + (queued entries)` strictly
decreases at every iteration.  This also shows the fuel `FLOOD_FUEL` is never
exhausted. -/

/-- Number of in-grid cells whose `discovered` flag is clear. -/
def undiscCount (d : Int → Int → Bool) : Nat :=
  (gridFinset.filter (fun p => d p.1 p.2 = false)).card

def floodMeasure (s : FloodState) : Nat :=
  2 * undiscCount s.discovered + s.q.length + s.next_q.length

theorem undiscCount_le (d : Int → Int → Bool) : undiscCount d ≤ 256 := by
  rw [← gridFinset_card]
  exact Finset.card_filter_le _ _

theorem undiscCount_setDisc_true {d : Int → Int → Bool} {x y : Int}
    (hin : inGridXY x y) (hf : d x y = false) :
    undiscCount (setDisc d x y true) + 1 = undiscCount d := by
  unfold undiscCount
  have hmem : (x, y) ∈ gridFinset.filter (fun p => d p.1 p.2 = false) := by
    refine Finset.mem_filter.2 ⟨mem_gridFinset (c := ⟨x, y⟩) hin, hf⟩
  have hset : gridFinset.filter (fun p => setDisc d x y true p.1 p.2 = false) =
      (gridFinset.filter (fun p => d p.1 p.2 = false)).erase (x, y) := by
    ext p
    simp only [Finset.mem_filter, Finset.mem_erase, setDisc]
    constructor
    · rintro ⟨hg2, hp⟩
      split at hp
      · exact absurd hp (by simp)
      · rename_i hne
        refine ⟨?_, hg2, hp⟩
        intro heq
        exact hne ⟨congrArg Prod.fst heq, congrArg Prod.snd heq⟩
    · rintro ⟨hne, hg2, hp⟩
      refine ⟨hg2, ?_⟩
      split
      · rename_i heq
        exact absurd (Prod.ext heq.1 heq.2) hne
      · exact hp
  rw [hset, Finset.card_erase_of_mem hmem]
  have : 0 < (gridFinset.filter (fun p => d p.1 p.2 = false)).card :=
    Finset.card_pos.2 ⟨(x, y), hmem⟩
  omega

theorem undiscCount_setDisc_le (d : Int → Int → Bool) (x y : Int) :
    undiscCount (setDisc d x y true) ≤ undiscCount d := by
  unfold undiscCount
  apply Finset.card_le_card
  intro p hp
  simp only [Finset.mem_filter, setDisc] at hp ⊢
  refine ⟨hp.1, ?_⟩
  have := hp.2
  split at this
  · exact absurd this (by simp)
  · exact this

theorem checkNeighbor_measure_le (s : FloodState) (nb : cell_t) (w : ℚ) :
    floodMeasure (checkNeighbor s nb w) ≤ floodMeasure s := by
  by_cases hoob : IS_CELL_OUT_OF_BOUNDS nb
  · rw [checkNeighbor_oob hoob]
  · by_cases hcond : s.discovered nb.x nb.y = false ∧ w < WALL_THRESHOLD
    · rw [checkNeighbor_push hoob hcond]
      unfold floodMeasure
      simp only [List.length_append, List.length_singleton]
      have hin : inGridXY nb.x nb.y := (inGrid_xy nb).1 ((inGrid_iff_not_oob nb).2 hoob)
      have := undiscCount_setDisc_true hin hcond.1
      omega
    · rw [checkNeighbor_skip hcond]

theorem processCell_measure_le (m : probabilistic_maze_t) (s : FloodState) (c : cell_t) :
    floodMeasure (processCell m s c) ≤ floodMeasure s := by
  by_cases hoob : IS_CELL_OUT_OF_BOUNDS c
  · rw [processCell_oob hoob]
  · rw [processCell_in hoob]
    calc floodMeasure _ ≤ floodMeasure (checkNeighbor (checkNeighbor (checkNeighbor
            { s with values := setValue s.values c.x c.y s.value }
            ⟨c.x, c.y - 1⟩ (northWallExists m c.x c.y))
            ⟨c.x + 1, c.y⟩ (eastWallExists m c.x c.y))
            ⟨c.x, c.y + 1⟩ (southWallExists m c.x c.y)) := checkNeighbor_measure_le _ _ _
      _ ≤ floodMeasure (checkNeighbor (checkNeighbor
            { s with values := setValue s.values c.x c.y s.value }
            ⟨c.x, c.y - 1⟩ (northWallExists m c.x c.y))
            ⟨c.x + 1, c.y⟩ (eastWallExists m c.x c.y)) := checkNeighbor_measure_le _ _ _
      _ ≤ floodMeasure (checkNeighbor
            { s with values := setValue s.values c.x c.y s.value }
            ⟨c.x, c.y - 1⟩ (northWallExists m c.x c.y)) := checkNeighbor_measure_le _ _ _
      _ ≤ floodMeasure { s with values := setValue s.values c.x c.y s.value } :=
            checkNeighbor_measure_le _ _ _
      _ ≤ floodMeasure s := le_of_eq rfl

theorem floodIter_measure_lt (m : probabilistic_maze_t) (s : FloodState)
    (h : ¬ (s.q = [] ∧ s.next_q = [])) :
    floodMeasure (floodIter m s) < floodMeasure s := by
  by_cases hqe : s.q = []
  · cases hnqc : s.next_q with
    | nil => exact absurd ⟨hqe, hnqc⟩ h
    | cons a l =>
      rw [floodIter_swap hqe hnqc]
      have hle := processCell_measure_le m
        { s with q := l, next_q := [], value := s.value + 1 } a
      unfold floodMeasure at hle ⊢
      simp only [List.length_nil] at hle ⊢
      rw [hqe, hnqc]
      simp only [List.length_cons, List.length_nil]
      omega
  · cases hqc : s.q with
    | nil => exact absurd hqc hqe
    | cons a l =>
      rw [floodIter_pop hqc]
      have hle := processCell_measure_le m { s with q := l } a
      unfold floodMeasure at hle ⊢
      rw [hqc]
      simp only [List.length_cons] at hle ⊢
      omega

/-! ## Correctness invariant of the flood-fill loop

`FloodInv m g L s` holds at the start of every loop iteration: `s.q` holds
exactly the still-unprocessed cells of BFS level `L`, `s.next_q` the
already-discovered cells of level `L + 1`, the discovered flags are sound
(only connected in-grid cells) and complete up to level `L`, every processed
cell has its distance in `values` and all its neighbors discovered, and every
unprocessed in-grid cell still holds `MAX_VALUE`. -/
structure FloodInv (m : probabilistic_maze_t) (g : cell_t) (L : Nat) (s : FloodState) :
    Prop where
  q_nodup : s.q.Nodup
  nq_nodup : s.next_q.Nodup
  q_nq_disj : ∀ c ∈ s.q, c ∉ s.next_q
  level_eq : s.value = (L : Int)
  q_dist : ∀ c ∈ s.q, distIs m g c L
  nq_dist : ∀ c ∈ s.next_q, distIs m g c (L + 1)
  q_disc : ∀ c ∈ s.q, s.discovered c.x c.y = true
  nq_disc : ∀ c ∈ s.next_q, s.discovered c.x c.y = true
  disc_conn : ∀ c : cell_t, inGrid c → s.discovered c.x c.y = true → connected m g c
  disc_all : ∀ c : cell_t, ∀ n, distIs m g c n → n ≤ L → s.discovered c.x c.y = true
  popped_closed : ∀ c : cell_t, inGrid c → s.discovered c.x c.y = true →
    c ∉ s.q → c ∉ s.next_q → ∀ b, adjacent m c b → s.discovered b.x b.y = true
  vals_popped : ∀ c : cell_t, ∀ n, distIs m g c n → s.discovered c.x c.y = true →
    c ∉ s.q → c ∉ s.next_q → s.values c.x c.y = (n : Int)
  vals_rest : ∀ c : cell_t, inGrid c →
    (s.discovered c.x c.y = false ∨ c ∈ s.q ∨ c ∈ s.next_q) →
    s.values c.x c.y = MAX_VALUE

/-- The invariant while the four neighbor checks of a popped cell `c0` run:
like `FloodInv`, but `c0` counts as processed even though its neighbors may
not all be discovered yet. -/
structure PopInv (m : probabilistic_maze_t) (g : cell_t) (L : Nat) (c0 : cell_t)
    (s : FloodState) : Prop where
  q_nodup : s.q.Nodup
  nq_nodup : s.next_q.Nodup
  q_nq_disj : ∀ c ∈ s.q, c ∉ s.next_q
  level_eq : s.value = (L : Int)
  q_dist : ∀ c ∈ s.q, distIs m g c L
  nq_dist : ∀ c ∈ s.next_q, distIs m g c (L + 1)
  q_disc : ∀ c ∈ s.q, s.discovered c.x c.y = true
  nq_disc : ∀ c ∈ s.next_q, s.discovered c.x c.y = true
  disc_conn : ∀ c : cell_t, inGrid c → s.discovered c.x c.y = true → connected m g c
  disc_all : ∀ c : cell_t, ∀ n, distIs m g c n → n ≤ L → s.discovered c.x c.y = true
  popped_closed : ∀ c : cell_t, inGrid c → s.discovered c.x c.y = true →
    c ∉ s.q → c ∉ s.next_q → c ≠ c0 →
    ∀ b, adjacent m c b → s.discovered b.x b.y = true
  vals_popped : ∀ c : cell_t, ∀ n, distIs m g c n → s.discovered c.x c.y = true →
    c ∉ s.q → c ∉ s.next_q → s.values c.x c.y = (n : Int)
  vals_rest : ∀ c : cell_t, inGrid c →
    (s.discovered c.x c.y = false ∨ c ∈ s.q ∨ c ∈ s.next_q) →
    s.values c.x c.y = MAX_VALUE
  c0_disc : s.discovered c0.x c0.y = true
  c0_not_q : c0 ∉ s.q
  c0_not_nq : c0 ∉ s.next_q
  c0_dist : distIs m g c0 L

theorem cell_ne_of_coords {c d : cell_t} (h : ¬ (c.x = d.x ∧ c.y = d.y)) : c ≠ d := by
  intro he; exact h (by rw [he]; exact ⟨rfl, rfl⟩)

theorem cell_eq_of_coords {c d : cell_t} (h1 : c.x = d.x) (h2 : c.y = d.y) : c = d :=
  cell_t.ext h1 h2

theorem setDisc_read (d : Int → Int → Bool) (x y : Int) (v : Bool) (a b : Int) :
    setDisc d x y v a b = if a = x ∧ b = y then v else d a b := rfl

theorem setDisc_self (d : Int → Int → Bool) (x y : Int) (v : Bool) :
    setDisc d x y v x y = v := by simp [setDisc]

theorem setValue_read (f : Int → Int → Int) (x y : Int) (v : Int) (a b : Int) :
    setValue f x y v a b = if a = x ∧ b = y then v else f a b := rfl

/-- `checkNeighbor` never clears a discovered flag. -/
theorem checkNeighbor_disc_mono {s : FloodState} {nb : cell_t} {w : ℚ} {x y : Int}
    (h : s.discovered x y = true) : (checkNeighbor s nb w).discovered x y = true := by
  by_cases hoob : IS_CELL_OUT_OF_BOUNDS nb
  · rw [checkNeighbor_oob hoob]; exact h
  · by_cases hcond : s.discovered nb.x nb.y = false ∧ w < WALL_THRESHOLD
    · rw [checkNeighbor_push hoob hcond]
      simp only [setDisc_read]
      split
      · rfl
      · exact h
    · rw [checkNeighbor_skip hcond]; exact h

/-- Transferring the invariant across the queue swap at the end of a level.
The completeness step: once every level-`L` cell is processed, every
level-`(L+1)` cell has been discovered, because its shortest-path predecessor
is a processed level-`L` cell whose neighbors are all discovered. -/
theorem FloodInv.swap {m : probabilistic_maze_t} {g : cell_t} {L : Nat} {s : FloodState}
    (hg : inGrid g) (inv : FloodInv m g L s) (hqe : s.q = []) :
    FloodInv m g (L + 1) { s with q := s.next_q, next_q := [], value := s.value + 1 } := by
  have disc_all2 : ∀ c : cell_t, ∀ n, distIs m g c n → n ≤ L + 1 →
      s.discovered c.x c.y = true := by
    intro c n hdist hn
    rcases Nat.lt_or_ge n (L + 1) with hlt | hge
    · exact inv.disc_all c n hdist (by omega)
    · have hne : n = L + 1 := by omega
      subst hne
      obtain ⟨p, hp, hpc⟩ := distIs_pred hdist
      have hpdisc : s.discovered p.x p.y = true := inv.disc_all p L hp le_rfl
      have hpin : inGrid p := reachN_inGrid hg hp.1
      have hpnq : p ∉ s.q := by rw [hqe]; exact List.not_mem_nil p
      have hpnnq : p ∉ s.next_q := by
        intro hmem
        have := distIs_unique hp (inv.nq_dist p hmem)
        omega
      exact inv.popped_closed p hpin hpdisc hpnq hpnnq c hpc
  refine ⟨inv.nq_nodup, List.nodup_nil, ?_, ?_, inv.nq_dist, ?_, inv.nq_disc, ?_,
    inv.disc_conn, disc_all2, ?_, ?_, ?_⟩
  · intro c _; exact List.not_mem_nil c
  · show s.value + 1 = ((L + 1 : Nat) : Int)
    rw [inv.level_eq]; push_cast; ring
  · intro c hmem; exact absurd hmem (List.not_mem_nil c)
  · intro c hmem; exact absurd hmem (List.not_mem_nil c)
  · intro c hin hdisc hcq _ b hadj
    exact inv.popped_closed c hin hdisc (by rw [hqe]; exact List.not_mem_nil c) hcq b hadj
  · intro c n hdist hdisc hcq _
    exact inv.vals_popped c n hdist hdisc (by rw [hqe]; exact List.not_mem_nil c) hcq
  · intro c hin hcase
    refine inv.vals_rest c hin ?_
    rcases hcase with h | h | h
    · exact Or.inl h
    · exact Or.inr (Or.inr h)
    · exact absurd h (List.not_mem_nil c)

theorem bool_eq_false {b : Bool} (h : ¬ b = true) : b = false := by
  cases b
  · rfl
  · exact absurd rfl h

/-- `(nb, w)` is one of the four directional probes that `floodfill` and
`chooseNextCell` perform from `c0`: the neighbor in a cardinal direction
together with the wall of `c0` facing it. -/
def dirStep (m : probabilistic_maze_t) (c0 nb : cell_t) (w : ℚ) : Prop :=
  (nb = ⟨c0.x, c0.y - 1⟩ ∧ w = northWallExists m c0.x c0.y) ∨
  (nb = ⟨c0.x + 1, c0.y⟩ ∧ w = eastWallExists m c0.x c0.y) ∨
  (nb = ⟨c0.x, c0.y + 1⟩ ∧ w = southWallExists m c0.x c0.y) ∨
  (nb = ⟨c0.x - 1, c0.y⟩ ∧ w = westWallExists m c0.x c0.y)

theorem adjacent_of_dirStep {m : probabilistic_maze_t} {c0 nb : cell_t} {w : ℚ}
    (h1 : inGrid c0) (h2 : inGrid nb) (hd : dirStep m c0 nb w)
    (hw : w < WALL_THRESHOLD) : adjacent m c0 nb := by
  refine ⟨h1, h2, ?_⟩
  rcases hd with ⟨he, hwid⟩ | ⟨he, hwid⟩ | ⟨he, hwid⟩ | ⟨he, hwid⟩
  · exact Or.inl ⟨he, hwid ▸ hw⟩
  · exact Or.inr (Or.inl ⟨he, hwid ▸ hw⟩)
  · exact Or.inr (Or.inr (Or.inl ⟨he, hwid ▸ hw⟩))
  · exact Or.inr (Or.inr (Or.inr ⟨he, hwid ▸ hw⟩))

/-- One neighbor check preserves the mid-pop invariant, and afterwards that
neighbor is discovered whenever it is in bounds and its wall is open. -/
theorem PopInv.check {m : probabilistic_maze_t} {g : cell_t} {L : Nat} {c0 : cell_t}
    {s : FloodState} {nb : cell_t} {w : ℚ} (hg : inGrid g)
    (inv : PopInv m g L c0 s) (hd : dirStep m c0 nb w) :
    PopInv m g L c0 (checkNeighbor s nb w) ∧
    (¬ IS_CELL_OUT_OF_BOUNDS nb → w < WALL_THRESHOLD →
      (checkNeighbor s nb w).discovered nb.x nb.y = true) := by
  by_cases hoob : IS_CELL_OUT_OF_BOUNDS nb
  · rw [checkNeighbor_oob hoob]
    exact ⟨inv, fun h _ => absurd hoob h⟩
  by_cases hcond : s.discovered nb.x nb.y = false ∧ w < WALL_THRESHOLD
  case neg =>
    rw [checkNeighbor_skip hcond]
    refine ⟨inv, fun _ hw => ?_⟩
    by_cases hdisc : s.discovered nb.x nb.y = true
    · exact hdisc
    · exact absurd ⟨bool_eq_false hdisc, hw⟩ hcond
  case pos =>
    have hnbundisc : s.discovered nb.x nb.y = false := hcond.1
    have hw : w < WALL_THRESHOLD := hcond.2
    have hnbin : inGrid nb := (inGrid_iff_not_oob nb).2 hoob
    have hc0in : inGrid c0 := reachN_inGrid hg inv.c0_dist.1
    have hadj : adjacent m c0 nb := adjacent_of_dirStep hc0in hnbin hd hw
    have hreach : reachN m (L + 1) g nb := ⟨c0, inv.c0_dist.1, hadj⟩
    have hnbdist : distIs m g nb (L + 1) := by
      refine ⟨hreach, ?_⟩
      intro k hk
      by_contra hlt
      push_neg at hlt
      obtain ⟨dn, hdn⟩ := distIs_of_connected ⟨k, hk⟩
      have : dn ≤ L := by have := hdn.2 k hk; omega
      have := inv.disc_all nb dn hdn this
      rw [hnbundisc] at this
      exact absurd this (by simp)
    have hnb_not_q : nb ∉ s.q := by
      intro hmem
      have := inv.q_disc nb hmem
      rw [hnbundisc] at this
      exact absurd this (by simp)
    have hnb_not_nq : nb ∉ s.next_q := by
      intro hmem
      have := inv.nq_disc nb hmem
      rw [hnbundisc] at this
      exact absurd this (by simp)
    have hnb_ne_c0 : nb ≠ c0 := by
      intro he
      rw [he, inv.c0_disc] at hnbundisc
      exact absurd hnbundisc (by simp)
    rw [checkNeighbor_push hoob hcond]
    have hdisc_new : ∀ x y : Int, s.discovered x y = true →
        setDisc s.discovered nb.x nb.y true x y = true := by
      intro x y h
      rw [setDisc_read]
      split
      · rfl
      · exact h
    have hdisc_nb : setDisc s.discovered nb.x nb.y true nb.x nb.y = true :=
      setDisc_self _ _ _ _
    have hdisc_cases : ∀ c : cell_t,
        setDisc s.discovered nb.x nb.y true c.x c.y = true →
        c = nb ∨ s.discovered c.x c.y = true := by
      intro c h
      rw [setDisc_read] at h
      by_cases hco : c.x = nb.x ∧ c.y = nb.y
      · exact Or.inl (cell_eq_of_coords hco.1 hco.2)
      · rw [if_neg hco] at h
        exact Or.inr h
    refine ⟨⟨inv.q_nodup, ?_, ?_, inv.level_eq, inv.q_dist, ?_, ?_, ?_, ?_, ?_, ?_, ?_, ?_,
      hdisc_new _ _ inv.c0_disc, inv.c0_not_q, ?_, inv.c0_dist⟩, fun _ _ => hdisc_nb⟩
    · -- nq_nodup
      show (s.next_q ++ [nb]).Nodup
      rw [List.nodup_append]
      exact ⟨inv.nq_nodup, List.nodup_singleton nb,
        fun a ha hb => hnb_not_nq ((List.mem_singleton.1 hb) ▸ ha)⟩
    · -- q_nq_disj
      intro c hc hmem
      rcases List.mem_append.1 hmem with h | h
      · exact inv.q_nq_disj c hc h
      · exact hnb_not_q ((List.mem_singleton.1 h) ▸ hc)
    · -- nq_dist
      intro c hmem
      rcases List.mem_append.1 hmem with h | h
      · exact inv.nq_dist c h
      · rw [List.mem_singleton.1 h]; exact hnbdist
    · -- q_disc
      intro c hc
      exact hdisc_new _ _ (inv.q_disc c hc)
    · -- nq_disc
      intro c hmem
      rcases List.mem_append.1 hmem with h | h
      · exact hdisc_new _ _ (inv.nq_disc c h)
      · rw [List.mem_singleton.1 h]; exact hdisc_nb
    · -- disc_conn
      intro c hin hdisc
      rcases hdisc_cases c hdisc with h | h
      · rw [h]; exact ⟨L + 1, hreach⟩
      · exact inv.disc_conn c hin h
    · -- disc_all
      intro c n hdist hn
      exact hdisc_new _ _ (inv.disc_all c n hdist hn)
    · -- popped_closed
      intro c hin hdisc hcq hcnq hcc0 b hadjb
      have hcnnq : c ∉ s.next_q := fun h => hcnq (List.mem_append.2 (Or.inl h))
      have hcne : c ≠ nb := fun h => hcnq (List.mem_append.2 (Or.inr (List.mem_singleton.2 h)))
      have hcdisc : s.discovered c.x c.y = true := by
        rcases hdisc_cases c hdisc with h | h
        · exact absurd h hcne
        · exact h
      exact hdisc_new _ _ (inv.popped_closed c hin hcdisc hcq hcnnq hcc0 b hadjb)
    · -- vals_popped
      intro c n hdist hdisc hcq hcnq
      have hcnnq : c ∉ s.next_q := fun h => hcnq (List.mem_append.2 (Or.inl h))
      have hcne : c ≠ nb := fun h => hcnq (List.mem_append.2 (Or.inr (List.mem_singleton.2 h)))
      have hcdisc : s.discovered c.x c.y = true := by
        rcases hdisc_cases c hdisc with h | h
        · exact absurd h hcne
        · exact h
      exact inv.vals_popped c n hdist hcdisc hcq hcnnq
    · -- vals_rest
      intro c hin hcase
      refine inv.vals_rest c hin ?_
      rcases hcase with h | h | h
      · left
        have h2 : setDisc s.discovered nb.x nb.y true c.x c.y = false := h
        rw [setDisc_read] at h2
        split at h2
        · exact absurd h2 (by simp)
        · exact h2
      · exact Or.inr (Or.inl h)
      · rcases List.mem_append.1 h with h2 | h2
        · exact Or.inr (Or.inr h2)
        · rw [List.mem_singleton.1 h2]
          exact Or.inl hnbundisc
    · -- c0_not_nq
      intro hmem
      rcases List.mem_append.1 hmem with h | h
      · exact inv.c0_not_nq h
      · exact hnb_ne_c0 ((List.mem_singleton.1 h).symm)

/-- Popping the head `c0` of the queue and writing its level into `values`
establishes the mid-pop invariant. -/
theorem PopInv.start {m : probabilistic_maze_t} {g : cell_t} {L : Nat} {s : FloodState}
    {c0 : cell_t} {rest : List cell_t} (hg : inGrid g)
    (inv : FloodInv m g L s) (hq : s.q = c0 :: rest) :
    PopInv m g L c0
      { values := setValue s.values c0.x c0.y s.value, discovered := s.discovered,
        q := rest, next_q := s.next_q, value := s.value } := by
  have hc0q : c0 ∈ s.q := by rw [hq]; exact List.mem_cons_self c0 rest
  have hnodup : c0 ∉ rest ∧ rest.Nodup := by
    have := inv.q_nodup
    rw [hq, List.nodup_cons] at this
    exact this
  have hc0dist : distIs m g c0 L := inv.q_dist c0 hc0q
  have hc0in : inGrid c0 := reachN_inGrid hg hc0dist.1
  have hc0disc : s.discovered c0.x c0.y = true := inv.q_disc c0 hc0q
  have hc0nnq : c0 ∉ s.next_q := inv.q_nq_disj c0 hc0q
  have hsub : ∀ c ∈ rest, c ∈ s.q := by
    intro c h; rw [hq]; exact List.mem_cons_of_mem c0 h
  have hnotq : ∀ c : cell_t, c ∉ rest → c ≠ c0 → c ∉ s.q := by
    intro c h1 h2 hmem
    rw [hq, List.mem_cons] at hmem
    rcases hmem with h | h
    · exact h2 h
    · exact h1 h
  have hval_other : ∀ c : cell_t, c ≠ c0 →
      setValue s.values c0.x c0.y s.value c.x c.y = s.values c.x c.y := by
    intro c hne
    rw [setValue_read, if_neg]
    intro hco
    exact hne (cell_eq_of_coords hco.1 hco.2)
  refine ⟨hnodup.2, inv.nq_nodup, fun c hc => inv.q_nq_disj c (hsub c hc), inv.level_eq,
    fun c hc => inv.q_dist c (hsub c hc), inv.nq_dist,
    fun c hc => inv.q_disc c (hsub c hc), inv.nq_disc, inv.disc_conn, inv.disc_all,
    ?_, ?_, ?_, hc0disc, hnodup.1, hc0nnq, hc0dist⟩
  · -- popped_closed away from c0
    intro c hin hdisc hcq hcnq hcc0 b hadjb
    exact inv.popped_closed c hin hdisc (hnotq c hcq hcc0) hcnq b hadjb
  · -- vals_popped
    intro c n hdist hdisc hcq hcnq
    by_cases hcc0 : c = c0
    · subst hcc0
      have hnL : n = L := distIs_unique hdist hc0dist
      show setValue s.values c.x c.y s.value c.x c.y = (n : Int)
      rw [setValue_read, if_pos ⟨rfl, rfl⟩, inv.level_eq, hnL]
    · show setValue s.values c0.x c0.y s.value c.x c.y = (n : Int)
      rw [hval_other c hcc0]
      exact inv.vals_popped c n hdist hdisc (hnotq c hcq hcc0) hcnq
  · -- vals_rest
    intro c hin hcase
    have hcc0 : c ≠ c0 := by
      intro he
      subst he
      rcases hcase with h | h | h
      · rw [hc0disc] at h; exact absurd h (by simp)
      · exact hnodup.1 h
      · exact hc0nnq h
    show setValue s.values c0.x c0.y s.value c.x c.y = MAX_VALUE
    rw [hval_other c hcc0]
    refine inv.vals_rest c hin ?_
    rcases hcase with h | h | h
    · exact Or.inl h
    · exact Or.inr (Or.inl (hsub c h))
    · exact Or.inr (Or.inr h)

/-- Processing the popped head of the queue preserves the loop invariant: in
particular, once its four neighbor checks have run, every open-wall neighbor
of the popped cell is discovered. -/
theorem processCell_floodInv {m : probabilistic_maze_t} {g : cell_t} {L : Nat}
    {s : FloodState} {c0 : cell_t} {rest : List cell_t} (hg : inGrid g)
    (inv : FloodInv m g L s) (hq : s.q = c0 :: rest) :
    FloodInv m g L (processCell m { s with q := rest } c0) := by
  have hc0q : c0 ∈ s.q := by rw [hq]; exact List.mem_cons_self c0 rest
  have hc0in : inGrid c0 := reachN_inGrid hg (inv.q_dist c0 hc0q).1
  have hoob : ¬ IS_CELL_OUT_OF_BOUNDS c0 := (inGrid_iff_not_oob c0).1 hc0in
  rw [processCell_in hoob]
  obtain ⟨inv1, hN⟩ := PopInv.check hg (PopInv.start hg inv hq)
    (show dirStep m c0 ⟨c0.x, c0.y - 1⟩ (northWallExists m c0.x c0.y) from
      Or.inl ⟨rfl, rfl⟩)
  obtain ⟨inv2, hE⟩ := PopInv.check hg inv1
    (show dirStep m c0 ⟨c0.x + 1, c0.y⟩ (eastWallExists m c0.x c0.y) from
      Or.inr (Or.inl ⟨rfl, rfl⟩))
  obtain ⟨inv3, hS⟩ := PopInv.check hg inv2
    (show dirStep m c0 ⟨c0.x, c0.y + 1⟩ (southWallExists m c0.x c0.y) from
      Or.inr (Or.inr (Or.inl ⟨rfl, rfl⟩)))
  obtain ⟨inv4, hW⟩ := PopInv.check hg inv3
    (show dirStep m c0 ⟨c0.x - 1, c0.y⟩ (westWallExists m c0.x c0.y) from
      Or.inr (Or.inr (Or.inr ⟨rfl, rfl⟩)))
  refine ⟨inv4.q_nodup, inv4.nq_nodup, inv4.q_nq_disj, inv4.level_eq, inv4.q_dist,
    inv4.nq_dist, inv4.q_disc, inv4.nq_disc, inv4.disc_conn, inv4.disc_all, ?_,
    inv4.vals_popped, inv4.vals_rest⟩
  intro c hin hdisc hcq hcnq b hadjb
  by_cases hcc0 : c = c0
  · subst hcc0
    obtain ⟨-, hbin, hcase⟩ := hadjb
    have hboob : ¬ IS_CELL_OUT_OF_BOUNDS b := (inGrid_iff_not_oob b).1 hbin
    rcases hcase with ⟨hbe, hbw⟩ | ⟨hbe, hbw⟩ | ⟨hbe, hbw⟩ | ⟨hbe, hbw⟩
    · subst hbe
      exact checkNeighbor_disc_mono (checkNeighbor_disc_mono (checkNeighbor_disc_mono
        (hN hboob hbw)))
    · subst hbe
      exact checkNeighbor_disc_mono (checkNeighbor_disc_mono (hE hboob hbw))
    · subst hbe
      exact checkNeighbor_disc_mono (hS hboob hbw)
    · subst hbe
      exact hW hboob hbw
  · exact inv4.popped_closed c hin hdisc hcq hcnq hcc0 b hadjb

/-- One loop iteration preserves the invariant (at the same or the next
level). -/
theorem floodIter_floodInv {m : probabilistic_maze_t} {g : cell_t} {L : Nat}
    {s : FloodState} (hg : inGrid g) (inv : FloodInv m g L s)
    (hne : ¬ (s.q = [] ∧ s.next_q = [])) :
    ∃ L2, FloodInv m g L2 (floodIter m s) := by
  by_cases hqe : s.q = []
  · cases hnqc : s.next_q with
    | nil => exact absurd ⟨hqe, hnqc⟩ hne
    | cons a l =>
      rw [floodIter_swap hqe hnqc]
      have hsw := FloodInv.swap hg inv hqe
      have hswq : ({ s with q := s.next_q, next_q := [], value := s.value + 1 }
          : FloodState).q = a :: l := by
        show s.next_q = a :: l
        exact hnqc
      exact ⟨L + 1, processCell_floodInv hg hsw hswq⟩
  · cases hqc : s.q with
    | nil => exact absurd hqc hqe
    | cons a l =>
      rw [floodIter_pop hqc]
      exact ⟨L, processCell_floodInv hg inv hqc⟩

/-- Running the loop with enough fuel empties both queues while keeping the
invariant. -/
theorem floodLoopFuel_floodInv {m : probabilistic_maze_t} {g : cell_t}
    (hg : inGrid g) :
    ∀ (fuel : Nat) (s : FloodState) (L : Nat), FloodInv m g L s →
      floodMeasure s ≤ fuel →
      ∃ L2, FloodInv m g L2 (floodLoopFuel m fuel s) ∧
        (floodLoopFuel m fuel s).q = [] ∧ (floodLoopFuel m fuel s).next_q = [] := by
  intro fuel
  induction fuel with
  | zero =>
    intro s L inv hm
    have h1 : s.q.length = 0 ∧ s.next_q.length = 0 := by
      unfold floodMeasure at hm; omega
    have hq : s.q = [] := List.length_eq_zero.1 h1.1
    have hnq : s.next_q = [] := List.length_eq_zero.1 h1.2
    exact ⟨L, inv, hq, hnq⟩
  | succ fuel ih =>
    intro s L inv hm
    by_cases hend : s.q = [] ∧ s.next_q = []
    · unfold floodLoopFuel
      rw [if_pos hend]
      exact ⟨L, inv, hend.1, hend.2⟩
    · unfold floodLoopFuel
      rw [if_neg hend]
      obtain ⟨L2, inv2⟩ := floodIter_floodInv hg inv hend
      have hlt := floodIter_measure_lt m s hend
      exact ih (floodIter m s) L2 inv2 (by omega)

/-- At termination every connected cell has been discovered: by induction on
its distance, its shortest-path predecessor is processed and closed. -/
theorem terminal_disc {m : probabilistic_maze_t} {g : cell_t} {L : Nat}
    {s : FloodState} (hg : inGrid g) (inv : FloodInv m g L s)
    (hq : s.q = []) (hnq : s.next_q = []) :
    ∀ (n : Nat) (c : cell_t), distIs m g c n → s.discovered c.x c.y = true := by
  intro n
  induction n with
  | zero =>
    intro c hdist
    exact inv.disc_all c 0 hdist (Nat.zero_le L)
  | succ n ih =>
    intro c hdist
    obtain ⟨p, hp, hpc⟩ := distIs_pred hdist
    have hpdisc := ih p hp
    have hpin : inGrid p := reachN_inGrid hg hp.1
    exact inv.popped_closed p hpin hpdisc (by rw [hq]; exact List.not_mem_nil p)
      (by rw [hnq]; exact List.not_mem_nil p) c hpc

/-- Main correctness statement of `floodfill`: started at an in-grid `cell`
with level `0`, it writes the exact minimum hop count of every connected
in-grid cell and leaves `MAX_VALUE` in every other in-grid cell, regardless of
the pre-call array contents. -/
theorem floodfill_values_spec (m : probabilistic_maze_t) (g : cell_t)
    (hg : inGrid g) (v0 : Int → Int → Int) (d0 : Int → Int → Bool)
    (c : cell_t) (hc : inGrid c) :
    (∀ n, distIs m g c n → (floodfill m g 0 v0 d0).values c.x c.y = (n : Int)) ∧
    (¬ connected m g c → (floodfill m g 0 v0 d0).values c.x c.y = MAX_VALUE) := by
  have hinv0 : FloodInv m g 0
      { values := resetValues v0,
        discovered := setDisc (setAllDiscoveredToFalse d0) g.x g.y true,
        q := [g], next_q := [], value := 0 } := by
    have hdg : setDisc (setAllDiscoveredToFalse d0) g.x g.y true g.x g.y = true :=
      setDisc_self _ _ _ _
    have hdisc_char : ∀ c2 : cell_t, inGrid c2 →
        setDisc (setAllDiscoveredToFalse d0) g.x g.y true c2.x c2.y = true → c2 = g := by
      intro c2 hin2 h
      rw [setDisc_read] at h
      by_cases hco : c2.x = g.x ∧ c2.y = g.y
      · exact cell_eq_of_coords hco.1 hco.2
      · rw [if_neg hco] at h
        unfold setAllDiscoveredToFalse at h
        rw [if_pos ((inGrid_xy c2).1 hin2)] at h
        exact absurd h (by simp)
    refine ⟨List.nodup_singleton g, List.nodup_nil, ?_, rfl, ?_, ?_, ?_, ?_, ?_, ?_,
      ?_, ?_, ?_⟩
    · intro c2 _; exact List.not_mem_nil c2
    · intro c2 hc2
      rw [List.mem_singleton.1 hc2]
      exact distIs_goal m g
    · intro c2 hc2; exact absurd hc2 (List.not_mem_nil c2)
    · intro c2 hc2
      rw [List.mem_singleton.1 hc2]
      exact hdg
    · intro c2 hc2; exact absurd hc2 (List.not_mem_nil c2)
    · intro c2 hin2 hdisc2
      rw [hdisc_char c2 hin2 hdisc2]
      exact connected_self m g
    · intro c2 n hdist hn
      have hn0 : n = 0 := by omega
      subst hn0
      have : g = c2 := hdist.1
      subst this
      exact hdg
    · intro c2 hin2 hdisc2 hq2 _
      exact absurd (List.mem_singleton.2 (hdisc_char c2 hin2 hdisc2)) hq2
    · intro c2 n hdist hdisc2 hq2 _
      have hin2 : inGrid c2 := reachN_inGrid hg hdist.1
      exact absurd (List.mem_singleton.2 (hdisc_char c2 hin2 hdisc2)) hq2
    · intro c2 hin2 _
      show resetValues v0 c2.x c2.y = MAX_VALUE
      unfold resetValues
      rw [if_pos ((inGrid_xy c2).1 hin2)]
  have hmeas : floodMeasure
      { values := resetValues v0,
        discovered := setDisc (setAllDiscoveredToFalse d0) g.x g.y true,
        q := [g], next_q := [], value := 0 } ≤ FLOOD_FUEL := by
    unfold floodMeasure FLOOD_FUEL
    have := undiscCount_le (setDisc (setAllDiscoveredToFalse d0) g.x g.y true)
    simp only [List.length_singleton, List.length_nil]
    omega
  obtain ⟨L2, inv2, hq2, hnq2⟩ := floodLoopFuel_floodInv hg FLOOD_FUEL _ 0 hinv0 hmeas
  constructor
  · intro n hdist
    have hdisc := terminal_disc hg inv2 hq2 hnq2 n c hdist
    exact inv2.vals_popped c n hdist hdisc (by rw [hq2]; exact List.not_mem_nil c)
      (by rw [hnq2]; exact List.not_mem_nil c)
  · intro hnc
    have hdisc : (floodLoopFuel m FLOOD_FUEL
        { values := resetValues v0,
          discovered := setDisc (setAllDiscoveredToFalse d0) g.x g.y true,
          q := [g], next_q := [], value := 0 }).discovered c.x c.y = false := by
      apply bool_eq_false
      intro h
      exact hnc (inv2.disc_conn c hc h)
    exact inv2.vals_rest c hc (Or.inl hdisc)

/-! ## Characterization of the next-cell selector

`chooseNextCell`'s four direction tests form a running minimum.  The
definitions below name the intermediate `lowest_value`/`next_cell` pairs of
the source exactly as they are computed, so `chooseNextCell_eq` holds by
definitional unfolding, and the lemmas after it capture the running-minimum
facts. -/

def selCond1 (V : Int → Int → Int) (m : probabilistic_maze_t) (r : cell_t) : Prop :=
  V r.x (r.y - 1) < MAX_VALUE ∧ northWallExists m r.x r.y < WALL_THRESHOLD

instance (V : Int → Int → Int) (m : probabilistic_maze_t) (r : cell_t) :
    Decidable (selCond1 V m r) := by unfold selCond1; infer_instance

def selLow1 (V : Int → Int → Int) (m : probabilistic_maze_t) (r : cell_t) : Int :=
  if selCond1 V m r then V r.x (r.y - 1) else MAX_VALUE

def selNext1 (V : Int → Int → Int) (m : probabilistic_maze_t) (r : cell_t) : cell_t :=
  if selCond1 V m r then ⟨r.x, r.y - 1⟩ else r

def selCond2 (V : Int → Int → Int) (m : probabilistic_maze_t) (r : cell_t) : Prop :=
  V (r.x + 1) r.y < selLow1 V m r ∧ eastWallExists m r.x r.y < WALL_THRESHOLD

instance (V : Int → Int → Int) (m : probabilistic_maze_t) (r : cell_t) :
    Decidable (selCond2 V m r) := by unfold selCond2; infer_instance

def selLow2 (V : Int → Int → Int) (m : probabilistic_maze_t) (r : cell_t) : Int :=
  if selCond2 V m r then V (r.x + 1) r.y else selLow1 V m r

def selNext2 (V : Int → Int → Int) (m : probabilistic_maze_t) (r : cell_t) : cell_t :=
  if selCond2 V m r then ⟨r.x + 1, r.y⟩ else selNext1 V m r

def selCond3 (V : Int → Int → Int) (m : probabilistic_maze_t) (r : cell_t) : Prop :=
  V r.x (r.y + 1) < selLow2 V m r ∧ southWallExists m r.x r.y < WALL_THRESHOLD

instance (V : Int → Int → Int) (m : probabilistic_maze_t) (r : cell_t) :
    Decidable (selCond3 V m r) := by unfold selCond3; infer_instance

def selLow3 (V : Int → Int → Int) (m : probabilistic_maze_t) (r : cell_t) : Int :=
  if selCond3 V m r then V r.x (r.y + 1) else selLow2 V m r

def selNext3 (V : Int → Int → Int) (m : probabilistic_maze_t) (r : cell_t) : cell_t :=
  if selCond3 V m r then ⟨r.x, r.y + 1⟩ else selNext2 V m r

def selCond4 (V : Int → Int → Int) (m : probabilistic_maze_t) (r : cell_t) : Prop :=
  V (r.x - 1) r.y < selLow3 V m r ∧ westWallExists m r.x r.y < WALL_THRESHOLD

instance (V : Int → Int → Int) (m : probabilistic_maze_t) (r : cell_t) :
    Decidable (selCond4 V m r) := by unfold selCond4; infer_instance

def selLow4 (V : Int → Int → Int) (m : probabilistic_maze_t) (r : cell_t) : Int :=
  if selCond4 V m r then V (r.x - 1) r.y else selLow3 V m r

def selNext4 (V : Int → Int → Int) (m : probabilistic_maze_t) (r : cell_t) : cell_t :=
  if selCond4 V m r then ⟨r.x - 1, r.y⟩ else selNext3 V m r

theorem chooseNextCell_eq (V : Int → Int → Int) (m : probabilistic_maze_t) (r : cell_t) :
    chooseNextCell V m r =
      if r.x = goal_cell.x ∧ r.y = goal_cell.y then r else selNext4 V m r := by
  rfl

theorem chooseNextCell_at_goal (V : Int → Int → Int) (m : probabilistic_maze_t)
    {r : cell_t} (h : r.x = goal_cell.x ∧ r.y = goal_cell.y) :
    chooseNextCell V m r = r := by
  rw [chooseNextCell_eq, if_pos h]

theorem cell_ne_of_x {c d : cell_t} (h : c.x ≠ d.x) : c ≠ d :=
  fun he => h (congrArg cell_t.x he)

theorem cell_ne_of_y {c d : cell_t} (h : c.y ≠ d.y) : c ≠ d :=
  fun he => h (congrArg cell_t.y he)

theorem MAX_VALUE_eq : MAX_VALUE = 999 := rfl

theorem selLow1_le (V : Int → Int → Int) (m : probabilistic_maze_t) (r : cell_t) :
    selLow1 V m r ≤ MAX_VALUE := by
  unfold selLow1
  split
  · rename_i h; exact le_of_lt h.1
  · exact le_refl _

theorem selLow2_le (V : Int → Int → Int) (m : probabilistic_maze_t) (r : cell_t) :
    selLow2 V m r ≤ selLow1 V m r := by
  unfold selLow2
  split
  · rename_i h; exact le_of_lt h.1
  · exact le_refl _

theorem selLow3_le (V : Int → Int → Int) (m : probabilistic_maze_t) (r : cell_t) :
    selLow3 V m r ≤ selLow2 V m r := by
  unfold selLow3
  split
  · rename_i h; exact le_of_lt h.1
  · exact le_refl _

theorem selLow4_le (V : Int → Int → Int) (m : probabilistic_maze_t) (r : cell_t) :
    selLow4 V m r ≤ selLow3 V m r := by
  unfold selLow4
  split
  · rename_i h; exact le_of_lt h.1
  · exact le_refl _

theorem selLow1_le_of_openN (V : Int → Int → Int) (m : probabilistic_maze_t) (r : cell_t)
    (hw : northWallExists m r.x r.y < WALL_THRESHOLD) :
    selLow1 V m r ≤ V r.x (r.y - 1) := by
  unfold selLow1
  split
  · exact le_refl _
  · rename_i h
    rw [selCond1, not_and] at h
    have := h
    by_cases hv : V r.x (r.y - 1) < MAX_VALUE
    · exact absurd hw (h hv)
    · omega

theorem selLow2_le_of_openE (V : Int → Int → Int) (m : probabilistic_maze_t) (r : cell_t)
    (hw : eastWallExists m r.x r.y < WALL_THRESHOLD) :
    selLow2 V m r ≤ V (r.x + 1) r.y := by
  unfold selLow2
  split
  · exact le_refl _
  · rename_i h
    rw [selCond2, not_and] at h
    by_cases hv : V (r.x + 1) r.y < selLow1 V m r
    · exact absurd hw (h hv)
    · omega

theorem selLow3_le_of_openS (V : Int → Int → Int) (m : probabilistic_maze_t) (r : cell_t)
    (hw : southWallExists m r.x r.y < WALL_THRESHOLD) :
    selLow3 V m r ≤ V r.x (r.y + 1) := by
  unfold selLow3
  split
  · exact le_refl _
  · rename_i h
    rw [selCond3, not_and] at h
    by_cases hv : V r.x (r.y + 1) < selLow2 V m r
    · exact absurd hw (h hv)
    · omega

theorem selLow4_le_of_openW (V : Int → Int → Int) (m : probabilistic_maze_t) (r : cell_t)
    (hw : westWallExists m r.x r.y < WALL_THRESHOLD) :
    selLow4 V m r ≤ V (r.x - 1) r.y := by
  unfold selLow4
  split
  · exact le_refl _
  · rename_i h
    rw [selCond4, not_and] at h
    by_cases hv : V (r.x - 1) r.y < selLow3 V m r
    · exact absurd hw (h hv)
    · omega

/-- The selector's result/value coupling: either nothing qualified and the
result is the robot cell with `lowest_value` still `MAX_VALUE`, or the result
is a directional neighbor through an open wall whose `values` entry is the
final `lowest_value`, strictly below `MAX_VALUE`. -/
theorem selNext4_cases (V : Int → Int → Int) (m : probabilistic_maze_t) (r : cell_t) :
    (selNext4 V m r = r ∧ selLow4 V m r = MAX_VALUE) ∨
    (selNext4 V m r = ⟨r.x, r.y - 1⟩ ∧ selLow4 V m r = V r.x (r.y - 1) ∧
      northWallExists m r.x r.y < WALL_THRESHOLD ∧ selLow4 V m r < MAX_VALUE) ∨
    (selNext4 V m r = ⟨r.x + 1, r.y⟩ ∧ selLow4 V m r = V (r.x + 1) r.y ∧
      eastWallExists m r.x r.y < WALL_THRESHOLD ∧ selLow4 V m r < MAX_VALUE) ∨
    (selNext4 V m r = ⟨r.x, r.y + 1⟩ ∧ selLow4 V m r = V r.x (r.y + 1) ∧
      southWallExists m r.x r.y < WALL_THRESHOLD ∧ selLow4 V m r < MAX_VALUE) ∨
    (selNext4 V m r = ⟨r.x - 1, r.y⟩ ∧ selLow4 V m r = V (r.x - 1) r.y ∧
      westWallExists m r.x r.y < WALL_THRESHOLD ∧ selLow4 V m r < MAX_VALUE) := by
  have h12 := selLow1_le V m r
  have h23 := selLow2_le V m r
  have h34 := selLow3_le V m r
  by_cases h4 : selCond4 V m r
  · refine Or.inr (Or.inr (Or.inr (Or.inr ⟨?_, ?_, h4.2, ?_⟩)))
    · unfold selNext4; rw [if_pos h4]
    · unfold selLow4; rw [if_pos h4]
    · unfold selLow4; rw [if_pos h4]
      have := h4.1; omega
  · have hn4 : selNext4 V m r = selNext3 V m r := by unfold selNext4; rw [if_neg h4]
    have hl4 : selLow4 V m r = selLow3 V m r := by unfold selLow4; rw [if_neg h4]
    rw [hn4, hl4]
    by_cases h3 : selCond3 V m r
    · refine Or.inr (Or.inr (Or.inr (Or.inl ⟨?_, ?_, h3.2, ?_⟩)))
      · unfold selNext3; rw [if_pos h3]
      · unfold selLow3; rw [if_pos h3]
      · unfold selLow3; rw [if_pos h3]
        have := h3.1; omega
    · have hn3 : selNext3 V m r = selNext2 V m r := by unfold selNext3; rw [if_neg h3]
      have hl3 : selLow3 V m r = selLow2 V m r := by unfold selLow3; rw [if_neg h3]
      rw [hn3, hl3]
      by_cases h2 : selCond2 V m r
      · refine Or.inr (Or.inr (Or.inl ⟨?_, ?_, h2.2, ?_⟩))
        · unfold selNext2; rw [if_pos h2]
        · unfold selLow2; rw [if_pos h2]
        · unfold selLow2; rw [if_pos h2]
          have := h2.1; omega
      · have hn2 : selNext2 V m r = selNext1 V m r := by unfold selNext2; rw [if_neg h2]
        have hl2 : selLow2 V m r = selLow1 V m r := by unfold selLow2; rw [if_neg h2]
        rw [hn2, hl2]
        by_cases h1 : selCond1 V m r
        · refine Or.inr (Or.inl ⟨?_, ?_, h1.2, ?_⟩)
          · unfold selNext1; rw [if_pos h1]
          · unfold selLow1; rw [if_pos h1]
          · unfold selLow1; rw [if_pos h1]
            exact h1.1
        · refine Or.inl ⟨?_, ?_⟩
          · unfold selNext1; rw [if_neg h1]
          · unfold selLow1; rw [if_neg h1]

/-- Minimality of the final `lowest_value` over all open directions. -/
theorem selLow4_min (V : Int → Int → Int) (m : probabilistic_maze_t) (r : cell_t) :
    (northWallExists m r.x r.y < WALL_THRESHOLD → selLow4 V m r ≤ V r.x (r.y - 1)) ∧
    (eastWallExists m r.x r.y < WALL_THRESHOLD → selLow4 V m r ≤ V (r.x + 1) r.y) ∧
    (southWallExists m r.x r.y < WALL_THRESHOLD → selLow4 V m r ≤ V r.x (r.y + 1)) ∧
    (westWallExists m r.x r.y < WALL_THRESHOLD → selLow4 V m r ≤ V (r.x - 1) r.y) := by
  have h12 := selLow2_le V m r
  have h23 := selLow3_le V m r
  have h34 := selLow4_le V m r
  refine ⟨fun hw => ?_, fun hw => ?_, fun hw => ?_, fun hw => ?_⟩
  · have := selLow1_le_of_openN V m r hw; omega
  · have := selLow2_le_of_openE V m r hw; omega
  · have := selLow3_le_of_openS V m r hw; omega
  · exact selLow4_le_of_openW V m r hw

theorem MAZE_WIDTH_eq : MAZE_WIDTH = 16 := rfl

theorem MAZE_HEIGHT_eq : MAZE_HEIGHT = 16 := rfl

/-- Border containment of the selector, provided the maze honors the input
contract that border walls stay at or above `WALL_THRESHOLD`: a direction
whose neighbor is outside the grid has a border wall, so its check fails. -/
theorem chooseNextCell_inGrid (V : Int → Int → Int) (m : probabilistic_maze_t)
    (r : cell_t) (hb : bordersClosed m) (hr : inGrid r) :
    inGrid (chooseNextCell V m r) := by
  rw [chooseNextCell_eq]
  by_cases hg : r.x = goal_cell.x ∧ r.y = goal_cell.y
  · rw [if_pos hg]; exact hr
  · rw [if_neg hg]
    obtain ⟨hx0, hx1, hy0, hy1⟩ := hr
    rw [MAZE_WIDTH_eq] at hx1
    rw [MAZE_HEIGHT_eq] at hy1
    rcases selNext4_cases V m r with ⟨he, -⟩ | ⟨he, -, hw, -⟩ | ⟨he, -, hw, -⟩ |
      ⟨he, -, hw, -⟩ | ⟨he, -, hw, -⟩ <;> rw [he]
    · exact ⟨hx0, by rw [MAZE_WIDTH_eq]; omega, hy0, by rw [MAZE_HEIGHT_eq]; omega⟩
    · -- north neighbor: its wall is a border wall when r.y = 0
      have hy : r.y ≠ 0 := by
        intro hy
        have hw2 : m.hWalls r.x r.y < WALL_THRESHOLD := hw
        rw [hy] at hw2
        exact absurd hw2 (not_lt.2 (hb.1 r.x hx0 (by rw [MAZE_WIDTH_eq]; omega)).1)
      exact ⟨hx0, by rw [MAZE_WIDTH_eq]; show r.x < 16; omega,
        show (0 : Int) ≤ r.y - 1 by omega,
        by rw [MAZE_HEIGHT_eq]; show r.y - 1 < 16; omega⟩
    · -- east neighbor: its wall is a border wall when r.x = 15
      have hx : r.x ≠ 15 := by
        intro hx
        have hw2 : m.vWalls (r.x + 1) r.y < WALL_THRESHOLD := hw
        rw [show r.x + 1 = (16 : Int) by omega] at hw2
        have hclosed := (hb.2 r.y hy0 (by rw [MAZE_HEIGHT_eq]; omega)).2
        rw [MAZE_WIDTH_eq] at hclosed
        exact absurd hw2 (not_lt.2 hclosed)
      exact ⟨show (0 : Int) ≤ r.x + 1 by omega,
        by rw [MAZE_WIDTH_eq]; show r.x + 1 < 16; omega,
        hy0, by rw [MAZE_HEIGHT_eq]; show r.y < 16; omega⟩
    · -- south neighbor: its wall is a border wall when r.y = 15
      have hy : r.y ≠ 15 := by
        intro hy
        have hw2 : m.hWalls r.x (r.y + 1) < WALL_THRESHOLD := hw
        rw [show r.y + 1 = (16 : Int) by omega] at hw2
        have hclosed := (hb.1 r.x hx0 (by rw [MAZE_WIDTH_eq]; omega)).2
        rw [MAZE_HEIGHT_eq] at hclosed
        exact absurd hw2 (not_lt.2 hclosed)
      exact ⟨hx0, by rw [MAZE_WIDTH_eq]; show r.x < 16; omega,
        show (0 : Int) ≤ r.y + 1 by omega,
        by rw [MAZE_HEIGHT_eq]; show r.y + 1 < 16; omega⟩
    · -- west neighbor: its wall is a border wall when r.x = 0
      have hx : r.x ≠ 0 := by
        intro hx
        have hw2 : m.vWalls r.x r.y < WALL_THRESHOLD := hw
        rw [hx] at hw2
        exact absurd hw2 (not_lt.2 (hb.2 r.y hy0 (by rw [MAZE_HEIGHT_eq]; omega)).1)
      exact ⟨show (0 : Int) ≤ r.x - 1 by omega,
        by rw [MAZE_WIDTH_eq]; show r.x - 1 < 16; omega,
        hy0, by rw [MAZE_HEIGHT_eq]; show r.y < 16; omega⟩

theorem goal_cell_inGrid : inGrid goal_cell := by decide

/-- Monotone descent: from a reachable non-goal cell, the selector applied to
the flooded distance field moves to an in-grid neighbor whose distance value
is exactly one less.  `V` is the memory the selector reads; it must agree
with the distance field on the grid (out-of-grid reads are never selected
because border walls are at or above threshold). -/
theorem chooseNextCell_descends (m : probabilistic_maze_t) (hb : bordersClosed m)
    (v0 : Int → Int → Int) (d0 : Int → Int → Bool) (V : Int → Int → Int)
    (hV : ∀ x y, inGridXY x y → V x y = (floodfill m goal_cell 0 v0 d0).values x y)
    (r : cell_t) (hr : inGrid r) (hcon : connected m goal_cell r)
    (hne : r ≠ goal_cell) :
    inGrid (chooseNextCell V m r) ∧
    (floodfill m goal_cell 0 v0 d0).values
        (chooseNextCell V m r).x (chooseNextCell V m r).y =
      (floodfill m goal_cell 0 v0 d0).values r.x r.y - 1 := by
  have hgin : inGrid goal_cell := goal_cell_inGrid
  refine ⟨chooseNextCell_inGrid V m r hb hr, ?_⟩
  obtain ⟨d, hd⟩ := distIs_of_connected hcon
  have hdpos : d ≠ 0 := by
    intro h0
    subst h0
    exact hne (distIs_zero_iff.1 hd).symm
  obtain ⟨k, rfl⟩ : ∃ k, d = k + 1 := ⟨d - 1, by omega⟩
  obtain ⟨p, hp, hpr⟩ := distIs_pred hd
  have hpin : inGrid p := reachN_inGrid hgin hp.1
  have hrp : adjacent m r p := adjacent_symm hpr
  have hkbound : k + 1 < 256 := distIs_lt_cells hgin hd
  have hvp : (floodfill m goal_cell 0 v0 d0).values p.x p.y = (k : Int) :=
    (floodfill_values_spec m goal_cell hgin v0 d0 p hpin).1 k hp
  have hnegoal : ¬ (r.x = goal_cell.x ∧ r.y = goal_cell.y) := by
    intro hc
    exact hne (cell_eq_of_coords hc.1 hc.2)
  have hvr : (floodfill m goal_cell 0 v0 d0).values r.x r.y = ((k + 1 : Nat) : Int) :=
    (floodfill_values_spec m goal_cell hgin v0 d0 r hr).1 (k + 1) hd
  have hmin := selLow4_min V m r
  -- the predecessor direction bounds the final lowest value by k
  have hlow_le : selLow4 V m r ≤ (k : Int) := by
    obtain ⟨-, -, hcase⟩ := hrp
    rcases hcase with ⟨he, hw⟩ | ⟨he, hw⟩ | ⟨he, hw⟩ | ⟨he, hw⟩
    · have h1 := hmin.1 hw
      have h2 : V r.x (r.y - 1) = (k : Int) := by
        rw [hV r.x (r.y - 1) (by rw [he] at hpin; exact hpin)]
        rw [he] at hvp
        exact hvp
      omega
    · have h1 := hmin.2.1 hw
      have h2 : V (r.x + 1) r.y = (k : Int) := by
        rw [hV (r.x + 1) r.y (by rw [he] at hpin; exact hpin)]
        rw [he] at hvp
        exact hvp
      omega
    · have h1 := hmin.2.2.1 hw
      have h2 : V r.x (r.y + 1) = (k : Int) := by
        rw [hV r.x (r.y + 1) (by rw [he] at hpin; exact hpin)]
        rw [he] at hvp
        exact hvp
      omega
    · have h1 := hmin.2.2.2 hw
      have h2 : V (r.x - 1) r.y = (k : Int) := by
        rw [hV (r.x - 1) r.y (by rw [he] at hpin; exact hpin)]
        rw [he] at hvp
        exact hvp
      omega
  have hlowlt : selLow4 V m r < MAX_VALUE := by
    rw [MAX_VALUE_eq]
    omega
  have hres_eq : chooseNextCell V m r = selNext4 V m r := by
    rw [chooseNextCell_eq, if_neg hnegoal]
  have hres_in : inGrid (selNext4 V m r) := by
    rw [← hres_eq]
    exact chooseNextCell_inGrid V m r hb hr
  -- the selected neighbor is adjacent to r and its V entry is the final lowest
  have hsel : adjacent m r (selNext4 V m r) ∧
      V (selNext4 V m r).x (selNext4 V m r).y = selLow4 V m r := by
    rcases selNext4_cases V m r with ⟨-, hl⟩ | ⟨he, hv, hw, -⟩ | ⟨he, hv, hw, -⟩ |
      ⟨he, hv, hw, -⟩ | ⟨he, hv, hw, -⟩
    · rw [hl] at hlowlt
      exact absurd hlowlt (lt_irrefl _)
    · refine ⟨⟨hr, he ▸ hres_in, Or.inl ⟨he, hw⟩⟩, ?_⟩
      rw [he]
      exact hv.symm
    · refine ⟨⟨hr, he ▸ hres_in, Or.inr (Or.inl ⟨he, hw⟩)⟩, ?_⟩
      rw [he]
      exact hv.symm
    · refine ⟨⟨hr, he ▸ hres_in, Or.inr (Or.inr (Or.inl ⟨he, hw⟩))⟩, ?_⟩
      rw [he]
      exact hv.symm
    · refine ⟨⟨hr, he ▸ hres_in, Or.inr (Or.inr (Or.inr ⟨he, hw⟩))⟩, ?_⟩
      rw [he]
      exact hv.symm
  obtain ⟨hadj, hVsel⟩ := hsel
  have hffv_sel : (floodfill m goal_cell 0 v0 d0).values
      (selNext4 V m r).x (selNext4 V m r).y = selLow4 V m r := by
    rw [← hV _ _ ((inGrid_xy _).1 hres_in)]
    exact hVsel
  -- the selected neighbor is connected: its distance entry is below MAX_VALUE
  have hconn_sel : connected m goal_cell (selNext4 V m r) := by
    by_contra hnc
    have := (floodfill_values_spec m goal_cell hgin v0 d0 _ hres_in).2 hnc
    rw [this] at hffv_sel
    rw [← hffv_sel] at hlowlt
    exact absurd hlowlt (lt_irrefl _)
  obtain ⟨dn, hdn⟩ := distIs_of_connected hconn_sel
  have hffv_dn : (floodfill m goal_cell 0 v0 d0).values
      (selNext4 V m r).x (selNext4 V m r).y = (dn : Int) :=
    (floodfill_values_spec m goal_cell hgin v0 d0 _ hres_in).1 dn hdn
  have hdn_le : (dn : Int) ≤ (k : Int) := by
    rw [← hffv_dn, hffv_sel]
    exact hlow_le
  have hdn_ge : k ≤ dn := by
    have := distIs_le_succ_of_adjacent hd hdn (adjacent_symm hadj)
    omega
  have hdn_eq : dn = k := by omega
  rw [hres_eq, hffv_dn, hvr, hdn_eq]
  push_cast
  ring

/-- N-E-S-W tie-breaking between East and South: when the East neighbor is
open and holds the same value as the South neighbor, the selector never picks
South — East was scanned earlier and South's strict comparison fails. -/
theorem chooseNextCell_tie_ES (V : Int → Int → Int) (m : probabilistic_maze_t)
    (r : cell_t) (hopenE : eastWallExists m r.x r.y < WALL_THRESHOLD)
    (heq : V r.x (r.y + 1) = V (r.x + 1) r.y) :
    chooseNextCell V m r ≠ ⟨r.x, r.y + 1⟩ := by
  rw [chooseNextCell_eq]
  by_cases hg : r.x = goal_cell.x ∧ r.y = goal_cell.y
  · rw [if_pos hg]
    exact cell_ne_of_y (show r.y ≠ r.y + 1 by omega)
  · rw [if_neg hg]
    have hc3 : ¬ selCond3 V m r := by
      intro hc
      have h1 : V r.x (r.y + 1) < selLow2 V m r := hc.1
      have h2 := selLow2_le_of_openE V m r hopenE
      omega
    unfold selNext4
    split
    · exact cell_ne_of_x (show r.x - 1 ≠ r.x by omega)
    · have h3 : selNext3 V m r = selNext2 V m r := by unfold selNext3; rw [if_neg hc3]
      rw [h3]
      unfold selNext2
      split
      · exact cell_ne_of_y (show r.y ≠ r.y + 1 by omega)
      · unfold selNext1
        split
        · exact cell_ne_of_y (show r.y - 1 ≠ r.y + 1 by omega)
        · exact cell_ne_of_y (show r.y ≠ r.y + 1 by omega)

/-- N-E-S-W tie-breaking between North and East: when the North neighbor is
open and holds the same value as the East neighbor, the selector never picks
East — North was scanned earlier and East's strict comparison fails. -/
theorem chooseNextCell_tie_NE (V : Int → Int → Int) (m : probabilistic_maze_t)
    (r : cell_t) (hopenN : northWallExists m r.x r.y < WALL_THRESHOLD)
    (heq : V (r.x + 1) r.y = V r.x (r.y - 1)) :
    chooseNextCell V m r ≠ ⟨r.x + 1, r.y⟩ := by
  rw [chooseNextCell_eq]
  by_cases hg : r.x = goal_cell.x ∧ r.y = goal_cell.y
  · rw [if_pos hg]
    exact cell_ne_of_x (show r.x ≠ r.x + 1 by omega)
  · rw [if_neg hg]
    have hc2 : ¬ selCond2 V m r := by
      intro h
      have h1 : V (r.x + 1) r.y < selLow1 V m r := h.1
      have h2 := selLow1_le_of_openN V m r hopenN
      omega
    unfold selNext4
    split
    · exact cell_ne_of_x (show r.x - 1 ≠ r.x + 1 by omega)
    · unfold selNext3
      split
      · exact cell_ne_of_x (show r.x ≠ r.x + 1 by omega)
      · have h22 : selNext2 V m r = selNext1 V m r := by unfold selNext2; rw [if_neg hc2]
        rw [h22]
        unfold selNext1
        split
        · exact cell_ne_of_x (show r.x ≠ r.x + 1 by omega)
        · exact cell_ne_of_x (show r.x ≠ r.x + 1 by omega)

/-- N-E-S-W tie-breaking between North and South: when the North neighbor is
open and holds the same value as the South neighbor, the selector never picks
South — North was scanned earlier and South's strict comparison fails. -/
theorem chooseNextCell_tie_NS (V : Int → Int → Int) (m : probabilistic_maze_t)
    (r : cell_t) (hopenN : northWallExists m r.x r.y < WALL_THRESHOLD)
    (heq : V r.x (r.y + 1) = V r.x (r.y - 1)) :
    chooseNextCell V m r ≠ ⟨r.x, r.y + 1⟩ := by
  rw [chooseNextCell_eq]
  by_cases hg : r.x = goal_cell.x ∧ r.y = goal_cell.y
  · rw [if_pos hg]
    exact cell_ne_of_y (show r.y ≠ r.y + 1 by omega)
  · rw [if_neg hg]
    have hc3 : ¬ selCond3 V m r := by
      intro h
      have h1 : V r.x (r.y + 1) < selLow2 V m r := h.1
      have h2 := selLow2_le V m r
      have h3 := selLow1_le_of_openN V m r hopenN
      omega
    unfold selNext4
    split
    · exact cell_ne_of_x (show r.x - 1 ≠ r.x by omega)
    · have h33 : selNext3 V m r = selNext2 V m r := by unfold selNext3; rw [if_neg hc3]
      rw [h33]
      unfold selNext2
      split
      · exact cell_ne_of_y (show r.y ≠ r.y + 1 by omega)
      · unfold selNext1
        split
        · exact cell_ne_of_y (show r.y - 1 ≠ r.y + 1 by omega)
        · exact cell_ne_of_y (show r.y ≠ r.y + 1 by omega)

/-- N-E-S-W tie-breaking between North and West: when the North neighbor is
open and holds the same value as the West neighbor, the selector never picks
West — North was scanned earlier and West's strict comparison fails. -/
theorem chooseNextCell_tie_NW (V : Int → Int → Int) (m : probabilistic_maze_t)
    (r : cell_t) (hopenN : northWallExists m r.x r.y < WALL_THRESHOLD)
    (heq : V (r.x - 1) r.y = V r.x (r.y - 1)) :
    chooseNextCell V m r ≠ ⟨r.x - 1, r.y⟩ := by
  rw [chooseNextCell_eq]
  by_cases hg : r.x = goal_cell.x ∧ r.y = goal_cell.y
  · rw [if_pos hg]
    exact cell_ne_of_x (show r.x ≠ r.x - 1 by omega)
  · rw [if_neg hg]
    have hc4 : ¬ selCond4 V m r := by
      intro h
      have h1 : V (r.x - 1) r.y < selLow3 V m r := h.1
      have h2 := selLow3_le V m r
      have h3 := selLow2_le V m r
      have h4 := selLow1_le_of_openN V m r hopenN
      omega
    have h44 : selNext4 V m r = selNext3 V m r := by unfold selNext4; rw [if_neg hc4]
    rw [h44]
    unfold selNext3
    split
    · exact cell_ne_of_x (show r.x ≠ r.x - 1 by omega)
    · unfold selNext2
      split
      · exact cell_ne_of_x (show r.x + 1 ≠ r.x - 1 by omega)
      · unfold selNext1
        split
        · exact cell_ne_of_x (show r.x ≠ r.x - 1 by omega)
        · exact cell_ne_of_x (show r.x ≠ r.x - 1 by omega)

/-- N-E-S-W tie-breaking between East and West: when the East neighbor is
open and holds the same value as the West neighbor, the selector never picks
West — East was scanned earlier and West's strict comparison fails. -/
theorem chooseNextCell_tie_EW (V : Int → Int → Int) (m : probabilistic_maze_t)
    (r : cell_t) (hopenE : eastWallExists m r.x r.y < WALL_THRESHOLD)
    (heq : V (r.x - 1) r.y = V (r.x + 1) r.y) :
    chooseNextCell V m r ≠ ⟨r.x - 1, r.y⟩ := by
  rw [chooseNextCell_eq]
  by_cases hg : r.x = goal_cell.x ∧ r.y = goal_cell.y
  · rw [if_pos hg]
    exact cell_ne_of_x (show r.x ≠ r.x - 1 by omega)
  · rw [if_neg hg]
    have hc4 : ¬ selCond4 V m r := by
      intro h
      have h1 : V (r.x - 1) r.y < selLow3 V m r := h.1
      have h2 := selLow3_le V m r
      have h3 := selLow2_le_of_openE V m r hopenE
      omega
    have h44 : selNext4 V m r = selNext3 V m r := by unfold selNext4; rw [if_neg hc4]
    rw [h44]
    unfold selNext3
    split
    · exact cell_ne_of_x (show r.x ≠ r.x - 1 by omega)
    · unfold selNext2
      split
      · exact cell_ne_of_x (show r.x + 1 ≠ r.x - 1 by omega)
      · unfold selNext1
        split
        · exact cell_ne_of_x (show r.x ≠ r.x - 1 by omega)
        · exact cell_ne_of_x (show r.x ≠ r.x - 1 by omega)

/-- N-E-S-W tie-breaking between South and West: when the South neighbor is
open and holds the same value as the West neighbor, the selector never picks
West — South was scanned earlier and West's strict comparison fails. -/
theorem chooseNextCell_tie_SW (V : Int → Int → Int) (m : probabilistic_maze_t)
    (r : cell_t) (hopenS : southWallExists m r.x r.y < WALL_THRESHOLD)
    (heq : V (r.x - 1) r.y = V r.x (r.y + 1)) :
    chooseNextCell V m r ≠ ⟨r.x - 1, r.y⟩ := by
  rw [chooseNextCell_eq]
  by_cases hg : r.x = goal_cell.x ∧ r.y = goal_cell.y
  · rw [if_pos hg]
    exact cell_ne_of_x (show r.x ≠ r.x - 1 by omega)
  · rw [if_neg hg]
    have hc4 : ¬ selCond4 V m r := by
      intro h
      have h1 : V (r.x - 1) r.y < selLow3 V m r := h.1
      have h2 := selLow3_le_of_openS V m r hopenS
      omega
    have h44 : selNext4 V m r = selNext3 V m r := by unfold selNext4; rw [if_neg hc4]
    rw [h44]
    unfold selNext3
    split
    · exact cell_ne_of_x (show r.x ≠ r.x - 1 by omega)
    · unfold selNext2
      split
      · exact cell_ne_of_x (show r.x + 1 ≠ r.x - 1 by omega)
      · unfold selNext1
        split
        · exact cell_ne_of_x (show r.x ≠ r.x - 1 by omega)
        · exact cell_ne_of_x (show r.x ≠ r.x - 1 by omega)

/-- A wall at or above `WALL_THRESHOLD` (in particular exactly at it) blocks
the selector: the cell behind it is never returned. -/
theorem chooseNextCell_closed_north (V : Int → Int → Int) (m : probabilistic_maze_t)
    (r : cell_t) (h : WALL_THRESHOLD ≤ northWallExists m r.x r.y) :
    chooseNextCell V m r ≠ ⟨r.x, r.y - 1⟩ := by
  rw [chooseNextCell_eq]
  by_cases hg : r.x = goal_cell.x ∧ r.y = goal_cell.y
  · rw [if_pos hg]
    exact cell_ne_of_y (show r.y ≠ r.y - 1 by omega)
  · rw [if_neg hg]
    rcases selNext4_cases V m r with ⟨he, -⟩ | ⟨-, -, hw, -⟩ | ⟨he, -, -, -⟩ |
      ⟨he, -, -, -⟩ | ⟨he, -, -, -⟩
    · rw [he]; exact cell_ne_of_y (show r.y ≠ r.y - 1 by omega)
    · exact absurd hw (not_lt.2 h)
    · rw [he]; exact cell_ne_of_x (show r.x + 1 ≠ r.x by omega)
    · rw [he]; exact cell_ne_of_y (show r.y + 1 ≠ r.y - 1 by omega)
    · rw [he]; exact cell_ne_of_x (show r.x - 1 ≠ r.x by omega)

theorem chooseNextCell_closed_east (V : Int → Int → Int) (m : probabilistic_maze_t)
    (r : cell_t) (h : WALL_THRESHOLD ≤ eastWallExists m r.x r.y) :
    chooseNextCell V m r ≠ ⟨r.x + 1, r.y⟩ := by
  rw [chooseNextCell_eq]
  by_cases hg : r.x = goal_cell.x ∧ r.y = goal_cell.y
  · rw [if_pos hg]
    exact cell_ne_of_x (show r.x ≠ r.x + 1 by omega)
  · rw [if_neg hg]
    rcases selNext4_cases V m r with ⟨he, -⟩ | ⟨he, -, -, -⟩ | ⟨-, -, hw, -⟩ |
      ⟨he, -, -, -⟩ | ⟨he, -, -, -⟩
    · rw [he]; exact cell_ne_of_x (show r.x ≠ r.x + 1 by omega)
    · rw [he]; exact cell_ne_of_x (show r.x ≠ r.x + 1 by omega)
    · exact absurd hw (not_lt.2 h)
    · rw [he]; exact cell_ne_of_x (show r.x ≠ r.x + 1 by omega)
    · rw [he]; exact cell_ne_of_x (show r.x - 1 ≠ r.x + 1 by omega)

theorem chooseNextCell_closed_south (V : Int → Int → Int) (m : probabilistic_maze_t)
    (r : cell_t) (h : WALL_THRESHOLD ≤ southWallExists m r.x r.y) :
    chooseNextCell V m r ≠ ⟨r.x, r.y + 1⟩ := by
  rw [chooseNextCell_eq]
  by_cases hg : r.x = goal_cell.x ∧ r.y = goal_cell.y
  · rw [if_pos hg]
    exact cell_ne_of_y (show r.y ≠ r.y + 1 by omega)
  · rw [if_neg hg]
    rcases selNext4_cases V m r with ⟨he, -⟩ | ⟨he, -, -, -⟩ | ⟨he, -, -, -⟩ |
      ⟨-, -, hw, -⟩ | ⟨he, -, -, -⟩
    · rw [he]; exact cell_ne_of_y (show r.y ≠ r.y + 1 by omega)
    · rw [he]; exact cell_ne_of_y (show r.y - 1 ≠ r.y + 1 by omega)
    · rw [he]; exact cell_ne_of_x (show r.x + 1 ≠ r.x by omega)
    · exact absurd hw (not_lt.2 h)
    · rw [he]; exact cell_ne_of_x (show r.x - 1 ≠ r.x by omega)

theorem chooseNextCell_closed_west (V : Int → Int → Int) (m : probabilistic_maze_t)
    (r : cell_t) (h : WALL_THRESHOLD ≤ westWallExists m r.x r.y) :
    chooseNextCell V m r ≠ ⟨r.x - 1, r.y⟩ := by
  rw [chooseNextCell_eq]
  by_cases hg : r.x = goal_cell.x ∧ r.y = goal_cell.y
  · rw [if_pos hg]
    exact cell_ne_of_x (show r.x ≠ r.x - 1 by omega)
  · rw [if_neg hg]
    rcases selNext4_cases V m r with ⟨he, -⟩ | ⟨he, -, -, -⟩ | ⟨he, -, -, -⟩ |
      ⟨he, -, -, -⟩ | ⟨-, -, hw, -⟩
    · rw [he]; exact cell_ne_of_x (show r.x ≠ r.x - 1 by omega)
    · rw [he]; exact cell_ne_of_x (show r.x ≠ r.x - 1 by omega)
    · rw [he]; exact cell_ne_of_x (show r.x + 1 ≠ r.x - 1 by omega)
    · rw [he]; exact cell_ne_of_y (show r.y + 1 ≠ r.y by omega)
    · exact absurd hw (not_lt.2 h)

/-- The selector depends on the walls only through their comparison with
`WALL_THRESHOLD`. -/
theorem chooseNextCell_walls_congr (V : Int → Int → Int)
    {m1 m2 : probabilistic_maze_t} (hm : wallsOpenIff m1 m2) (r : cell_t) :
    chooseNextCell V m1 r = chooseNextCell V m2 r := by
  have hN : (northWallExists m1 r.x r.y < WALL_THRESHOLD) =
      (northWallExists m2 r.x r.y < WALL_THRESHOLD) := propext (hm r.x r.y).1
  have hE : (eastWallExists m1 r.x r.y < WALL_THRESHOLD) =
      (eastWallExists m2 r.x r.y < WALL_THRESHOLD) := propext (hm (r.x + 1) r.y).2
  have hS : (southWallExists m1 r.x r.y < WALL_THRESHOLD) =
      (southWallExists m2 r.x r.y < WALL_THRESHOLD) := propext (hm r.x (r.y + 1)).1
  have hW : (westWallExists m1 r.x r.y < WALL_THRESHOLD) =
      (westWallExists m2 r.x r.y < WALL_THRESHOLD) := propext (hm r.x r.y).2
  have h1 : selCond1 V m1 r = selCond1 V m2 r := by unfold selCond1; rw [hN]
  have hl1 : selLow1 V m1 r = selLow1 V m2 r := by unfold selLow1; simp only [h1]
  have hn1 : selNext1 V m1 r = selNext1 V m2 r := by unfold selNext1; simp only [h1]
  have h2 : selCond2 V m1 r = selCond2 V m2 r := by unfold selCond2; rw [hl1, hE]
  have hl2 : selLow2 V m1 r = selLow2 V m2 r := by
    unfold selLow2; simp only [h2, hl1]
  have hn2 : selNext2 V m1 r = selNext2 V m2 r := by
    unfold selNext2; simp only [h2, hn1]
  have h3 : selCond3 V m1 r = selCond3 V m2 r := by unfold selCond3; rw [hl2, hS]
  have hl3 : selLow3 V m1 r = selLow3 V m2 r := by
    unfold selLow3; simp only [h3, hl2]
  have hn3 : selNext3 V m1 r = selNext3 V m2 r := by
    unfold selNext3; simp only [h3, hn2]
  have h4 : selCond4 V m1 r = selCond4 V m2 r := by unfold selCond4; rw [hl3, hW]
  have hn4 : selNext4 V m1 r = selNext4 V m2 r := by
    unfold selNext4; simp only [h4, hn3]
  rw [chooseNextCell_eq, chooseNextCell_eq, hn4]

/-! ## Coordinate conversion lemmas -/

theorem pitch_eq : WALL_THICKNESS + CELL_LENGTH = (180 : ℚ) := by
  norm_num [WALL_THICKNESS, CELL_LENGTH]

theorem half_cell_eq : CELL_LENGTH / 2 = (84 : ℚ) := by
  norm_num [CELL_LENGTH]

/-- Truncating the center-of-cell coordinate recovers the cell index (for
nonnegative indices; the fraction `84/180` never reaches the next cell). -/
theorem truncToInt_center (c : Int) (h : 0 ≤ c) :
    truncToInt (((c : ℚ) * (WALL_THICKNESS + CELL_LENGTH) + CELL_LENGTH / 2) /
      (WALL_THICKNESS + CELL_LENGTH)) = c := by
  rw [pitch_eq, half_cell_eq]
  have hval : ((c : ℚ) * 180 + 84) / 180 = (c : ℚ) + 7 / 15 := by
    field_simp
    ring
  rw [hval]
  have hge : (0 : ℚ) ≤ (c : ℚ) + 7 / 15 := by
    have : (0 : ℚ) ≤ (c : ℚ) := Int.cast_nonneg.2 h
    linarith
  unfold truncToInt
  rw [if_neg (not_lt.2 hge)]
  have hfrac : ⌊(7 / 15 : ℚ)⌋ = 0 := by
    rw [Int.floor_eq_zero_iff]
    constructor <;> norm_num
  rw [Int.floor_int_add, hfrac, add_zero]

theorem convert_roundtrip (cx cy : Int) (h1 : 0 ≤ cx) (h3 : 0 ≤ cy)
    (loc : gaussian_location_t) :
    convertLocationToCell (convertCellToLocation ⟨cx, cy⟩ loc) = ⟨cx, cy⟩ := by
  unfold convertLocationToCell convertCellToLocation
  exact cell_eq_of_coords (truncToInt_center cx h1) (truncToInt_center cy h3)

/-- A pose with both means at `1344` (the center of cell `(7,7)`) converts to
the goal cell. -/
theorem convert_goal_center (loc : gaussian_location_t)
    (hx : loc.x_mu = 1344) (hy : loc.y_mu = 1344) :
    convertLocationToCell loc = goal_cell := by
  unfold convertLocationToCell
  rw [hx, hy, pitch_eq]
  have h7 : truncToInt ((1344 : ℚ) / 180) = 7 := by
    unfold truncToInt
    rw [if_neg (by norm_num)]
    rw [Int.floor_eq_iff]
    constructor <;> norm_num
  exact cell_eq_of_coords h7 h7

/-- A pose with both means at `84` (the center of cell `(0,0)`) converts to
cell `(0,0)`. -/
theorem convert_origin_center (loc : gaussian_location_t)
    (hx : loc.x_mu = 84) (hy : loc.y_mu = 84) :
    convertLocationToCell loc = ⟨0, 0⟩ := by
  unfold convertLocationToCell
  rw [hx, hy, pitch_eq]
  have h0 : truncToInt ((84 : ℚ) / 180) = 0 := by
    unfold truncToInt
    rw [if_neg (by norm_num)]
    rw [Int.floor_eq_iff]
    constructor <;> norm_num
  exact cell_eq_of_coords h0 h0

/-! ## Strategy-level lemmas -/

/-- `strategy` writes only `x_mu` and `y_mu` of the output location. -/
theorem strategy_writes_only_xy (robot_location : gaussian_location_t)
    (maze_state : probabilistic_maze_t) (next_location : gaussian_location_t)
    (prev_next_cell0 : cell_t) (values0 : Int → Int → Int)
    (discovered0 : Int → Int → Bool) :
    (strategy robot_location maze_state next_location prev_next_cell0 values0
        discovered0).next_location.theta_mu = next_location.theta_mu ∧
    (strategy robot_location maze_state next_location prev_next_cell0 values0
        discovered0).next_location.theta_sigma2 = next_location.theta_sigma2 ∧
    (strategy robot_location maze_state next_location prev_next_cell0 values0
        discovered0).next_location.x_sigma2 = next_location.x_sigma2 ∧
    (strategy robot_location maze_state next_location prev_next_cell0 values0
        discovered0).next_location.y_sigma2 = next_location.y_sigma2 :=
  ⟨rfl, rfl, rfl, rfl⟩

/-- A `strategy` call with the pose at the goal center: the target pose is the
goal center again, and the arrival LED is raised exactly when the previous
call already selected the goal cell. -/
theorem strategy_at_goal_center (m : probabilistic_maze_t)
    (next_location : gaussian_location_t) (prev : cell_t)
    (v0 : Int → Int → Int) (d0 : Int → Int → Bool) (loc : gaussian_location_t)
    (hx : loc.x_mu = 1344) (hy : loc.y_mu = 1344) :
    (strategy loc m next_location prev v0 d0).next_location.x_mu = 1344 ∧
    (strategy loc m next_location prev v0 d0).next_location.y_mu = 1344 ∧
    (strategy loc m next_location prev v0 d0).prev_next_cell = goal_cell ∧
    ((strategy loc m next_location prev v0 d0).led1_set_high = true ↔
      prev = goal_cell) := by
  have hcell : convertLocationToCell loc = goal_cell := convert_goal_center loc hx hy
  have hchoose : chooseNextCell (floodfill m goal_cell 0 v0 d0).values m
      (convertLocationToCell loc) = goal_cell := by
    rw [hcell]
    exact chooseNextCell_at_goal _ m ⟨rfl, rfl⟩
  have hcenter : (goal_cell.x : ℚ) * (WALL_THICKNESS + CELL_LENGTH) + CELL_LENGTH / 2
      = 1344 := by
    rw [pitch_eq, half_cell_eq]
    norm_num [goal_cell, GOAL_CELL_X]
  refine ⟨?_, ?_, ?_, ?_⟩
  · show ((convertCellToLocation (chooseNextCell (floodfill m goal_cell 0 v0 d0).values
      m (convertLocationToCell loc)) next_location)).x_mu = 1344
    rw [hchoose]
    show (goal_cell.x : ℚ) * (WALL_THICKNESS + CELL_LENGTH) + CELL_LENGTH / 2 = 1344
    exact hcenter
  · show ((convertCellToLocation (chooseNextCell (floodfill m goal_cell 0 v0 d0).values
      m (convertLocationToCell loc)) next_location)).y_mu = 1344
    rw [hchoose]
    show (goal_cell.y : ℚ) * (WALL_THICKNESS + CELL_LENGTH) + CELL_LENGTH / 2 = 1344
    exact hcenter
  · show chooseNextCell (floodfill m goal_cell 0 v0 d0).values m
      (convertLocationToCell loc) = goal_cell
    exact hchoose
  · show decide ((prev.x = (chooseNextCell (floodfill m goal_cell 0 v0 d0).values m
        (convertLocationToCell loc)).x ∧
        prev.y = (chooseNextCell (floodfill m goal_cell 0 v0 d0).values m
        (convertLocationToCell loc)).y) ∧
        (convertLocationToCell loc).x = (chooseNextCell (floodfill m goal_cell 0 v0
        d0).values m (convertLocationToCell loc)).x ∧
        (convertLocationToCell loc).y = (chooseNextCell (floodfill m goal_cell 0 v0
        d0).values m (convertLocationToCell loc)).y) = true ↔ prev = goal_cell
    rw [decide_eq_true_iff]
    rw [hchoose, hcell]
    constructor
    · intro h
      exact cell_eq_of_coords h.1.1 h.1.2
    · intro h
      exact ⟨⟨congrArg cell_t.x h, congrArg cell_t.y h⟩, rfl, rfl⟩

set_option maxRecDepth 40000 in
set_option maxHeartbeats 2000000 in
/-- Scenario S1: in the empty maze, from cell `(0, 0)`, the flooded field
gives both the East and South neighbors distance 13, and the selector picks
East, cell `(1, 0)` — the N-E-S-W tie-break.  The pre-call contents of the
`values`/`discovered` arrays are arbitrary. -/
theorem chooseNextCell_S1 (v0 : Int → Int → Int) (d0 : Int → Int → Bool) :
    (floodfill emptyMaze goal_cell 0 v0 d0).values 1 0 = 13 ∧
    (floodfill emptyMaze goal_cell 0 v0 d0).values 0 1 = 13 ∧
    chooseNextCell (floodfill emptyMaze goal_cell 0 v0 d0).values emptyMaze ⟨0, 0⟩ =
      ⟨1, 0⟩ := by
  have hag := (floodfill_agree (wallsOpenIff_refl emptyMaze) goal_cell 0 v0 z999
    d0 zfalse).2.2.2.1
  have h10c : (floodfill emptyMaze goal_cell 0 z999 zfalse).values 1 0 = 13 := by
    decide
  have h01c : (floodfill emptyMaze goal_cell 0 z999 zfalse).values 0 1 = 13 := by
    decide
  have h10 : (floodfill emptyMaze goal_cell 0 v0 d0).values 1 0 = 13 :=
    (hag 1 0 (by decide)).trans h10c
  have h01 : (floodfill emptyMaze goal_cell 0 v0 d0).values 0 1 = 13 :=
    (hag 0 1 (by decide)).trans h01c
  refine ⟨h10, h01, ?_⟩
  generalize hgen : (floodfill emptyMaze goal_cell 0 v0 d0).values = W
  rw [hgen] at h10 h01
  have hc1 : ¬ selCond1 W emptyMaze ⟨0, 0⟩ := by
    intro h
    exact absurd h.2 (by decide)
  have hl1 : selLow1 W emptyMaze ⟨0, 0⟩ = MAX_VALUE := by
    unfold selLow1
    rw [if_neg hc1]
  have hc2 : selCond2 W emptyMaze ⟨0, 0⟩ := by
    refine ⟨?_, by decide⟩
    rw [hl1]
    exact h10.trans_lt (by decide)
  have hl2 : selLow2 W emptyMaze ⟨0, 0⟩ = W 1 0 := by
    unfold selLow2
    rw [if_pos hc2]
    rfl
  have hc3 : ¬ selCond3 W emptyMaze ⟨0, 0⟩ := by
    intro h
    have hv : W 0 1 < selLow2 W emptyMaze ⟨0, 0⟩ := h.1
    rw [hl2, h10, h01] at hv
    exact absurd hv (lt_irrefl _)
  have hc4 : ¬ selCond4 W emptyMaze ⟨0, 0⟩ := by
    intro h
    exact absurd h.2 (by decide)
  have hn2 : selNext2 W emptyMaze ⟨0, 0⟩ = ⟨1, 0⟩ := by
    unfold selNext2
    rw [if_pos hc2]
    rfl
  have hn3 : selNext3 W emptyMaze ⟨0, 0⟩ = ⟨1, 0⟩ := by
    unfold selNext3
    rw [if_neg hc3, hn2]
  have hn4 : selNext4 W emptyMaze ⟨0, 0⟩ = ⟨1, 0⟩ := by
    unfold selNext4
    rw [if_neg hc4, hn3]
  rw [chooseNextCell_eq, if_neg (by decide), hn4]

/-- Scenario S1 at the `strategy` level: pose `(84, 84)` in the empty maze
selects cell `(1, 0)` and targets the pose `(264, 84)`. -/
theorem strategy_S1 (next_location : gaussian_location_t) (prev : cell_t)
    (v0 : Int → Int → Int) (d0 : Int → Int → Bool) (loc : gaussian_location_t)
    (hx : loc.x_mu = 84) (hy : loc.y_mu = 84) :
    (strategy loc emptyMaze next_location prev v0 d0).prev_next_cell = ⟨1, 0⟩ ∧
    (strategy loc emptyMaze next_location prev v0 d0).next_location.x_mu = 264 ∧
    (strategy loc emptyMaze next_location prev v0 d0).next_location.y_mu = 84 := by
  have hcell : convertLocationToCell loc = ⟨0, 0⟩ := convert_origin_center loc hx hy
  have hchoose : chooseNextCell (floodfill emptyMaze goal_cell 0 v0 d0).values
      emptyMaze (convertLocationToCell loc) = ⟨1, 0⟩ := by
    rw [hcell]
    exact (chooseNextCell_S1 v0 d0).2.2
  refine ⟨?_, ?_, ?_⟩
  · show chooseNextCell (floodfill emptyMaze goal_cell 0 v0 d0).values emptyMaze
      (convertLocationToCell loc) = ⟨1, 0⟩
    exact hchoose
  · show ((convertCellToLocation (chooseNextCell (floodfill emptyMaze goal_cell 0 v0
      d0).values emptyMaze (convertLocationToCell loc)) next_location)).x_mu = 264
    rw [hchoose]
    show ((1 : Int) : ℚ) * (WALL_THICKNESS + CELL_LENGTH) + CELL_LENGTH / 2 = 264
    rw [pitch_eq, half_cell_eq]
    norm_num
  · show ((convertCellToLocation (chooseNextCell (floodfill emptyMaze goal_cell 0 v0
      d0).values emptyMaze (convertLocationToCell loc)) next_location)).y_mu = 84
    rw [hchoose]
    show ((0 : Int) : ℚ) * (WALL_THICKNESS + CELL_LENGTH) + CELL_LENGTH / 2 = 84
    rw [pitch_eq, half_cell_eq]
    norm_num

/-- At any border cell other than the goal (here `(0,0)`), the first distance
read of `chooseNextCell` — `values[x][y-1]`, evaluated before the wall test —
is out of bounds, so the checked embedding aborts with `none`. -/
theorem chooseNextCellChecked_border (V : Int → Int → Int)
    (m : probabilistic_maze_t) : chooseNextCellChecked V m ⟨0, 0⟩ = none := by
  unfold chooseNextCellChecked readValuesChecked
  rw [if_neg (show ¬ ((⟨0, 0⟩ : cell_t).x = goal_cell.x ∧
    (⟨0, 0⟩ : cell_t).y = goal_cell.y) by decide)]
  rw [if_neg (show ¬ inGridXY (⟨0, 0⟩ : cell_t).x ((⟨0, 0⟩ : cell_t).y - 1) by decide)]
  rfl

/-- The maze of the C5 counterexample: every wall open — border walls
included — except the east, south and west walls of cell `(1, 0)`.  From
`(1, 0)` only the north direction can fire, and its neighbor `(1, -1)` is out
of the grid: the `values[1][-1]` read lands on `values[0][15]` in the
row-major layout. -/
def m5 : probabilistic_maze_t :=
  { hWalls := fun x y => if x = 1 ∧ y = 1 then 1 else 0,
    vWalls := fun x y => if (x = 1 ∧ y = 0) ∨ (x = 2 ∧ y = 0) then 1 else 0 }

set_option maxRecDepth 40000 in
set_option maxHeartbeats 2000000 in
/-- With the borders of `m5` open, `chooseNextCell` from `(1, 0)` returns the
out-of-grid cell `(1, -1)`: the out-of-bounds read `values[1][-1]` aliases
`values[0][15] = 15 < MAX_VALUE` and the north border wall is open. -/
theorem chooseNextCell_m5 :
    chooseNextCell (flatMemory (floodfill m5 goal_cell 0 z999 zfalse).values) m5
      ⟨1, 0⟩ = ⟨1, -1⟩ := by
  have h015 : (floodfill m5 goal_cell 0 z999 zfalse).values 0 15 = 15 := by
    decide
  generalize hgen : (floodfill m5 goal_cell 0 z999 zfalse).values = W
  rw [hgen] at h015
  have hread : flatMemory W 1 ((⟨1, 0⟩ : cell_t).y - 1) = W 0 15 := by
    show (if (0 : Int) ≤ 16 * 1 + (0 - 1) ∧ 16 * 1 + (0 - 1) < 256
      then W ((16 * 1 + (0 - 1)) / 16) ((16 * 1 + (0 - 1)) % 16)
      else MAX_VALUE) = W 0 15
    rw [if_pos (by decide)]
    rfl
  have hc1 : selCond1 (flatMemory W) m5 ⟨1, 0⟩ := by
    constructor
    · show flatMemory W 1 ((⟨1, 0⟩ : cell_t).y - 1) < MAX_VALUE
      rw [hread, h015]
      decide
    · show northWallExists m5 1 0 < WALL_THRESHOLD
      decide
  have hc2 : ¬ selCond2 (flatMemory W) m5 ⟨1, 0⟩ := by
    intro h
    exact absurd h.2 (by decide)
  have hc3 : ¬ selCond3 (flatMemory W) m5 ⟨1, 0⟩ := by
    intro h
    exact absurd h.2 (by decide)
  have hc4 : ¬ selCond4 (flatMemory W) m5 ⟨1, 0⟩ := by
    intro h
    exact absurd h.2 (by decide)
  have hn1 : selNext1 (flatMemory W) m5 ⟨1, 0⟩ = ⟨1, -1⟩ := by
    unfold selNext1
    rw [if_pos hc1]
    rfl
  have hn2 : selNext2 (flatMemory W) m5 ⟨1, 0⟩ = ⟨1, -1⟩ := by
    unfold selNext2
    rw [if_neg hc2, hn1]
  have hn3 : selNext3 (flatMemory W) m5 ⟨1, 0⟩ = ⟨1, -1⟩ := by
    unfold selNext3
    rw [if_neg hc3, hn2]
  have hn4 : selNext4 (flatMemory W) m5 ⟨1, 0⟩ = ⟨1, -1⟩ := by
    unfold selNext4
    rw [if_neg hc4, hn3]
  rw [chooseNextCell_eq, if_neg (by decide), hn4]

/-- The empty maze satisfies the border-wall input contract. -/
theorem emptyMaze_bordersClosed : bordersClosed emptyMaze := by
  refine ⟨fun x h0 h1 => ⟨?_, ?_⟩, fun y h0 h1 => ⟨?_, ?_⟩⟩
  · show WALL_THRESHOLD ≤ (if 0 ≤ x ∧ x ≤ 15 ∧ 1 ≤ (0 : Int) ∧ (0 : Int) ≤ 15
      then 0 else 1)
    rw [if_neg (fun h => by omega)]
    decide
  · rw [MAZE_HEIGHT_eq]
    show WALL_THRESHOLD ≤ (if 0 ≤ x ∧ x ≤ 15 ∧ 1 ≤ (16 : Int) ∧ (16 : Int) ≤ 15
      then 0 else 1)
    rw [if_neg (fun h => by omega)]
    decide
  · show WALL_THRESHOLD ≤ (if 1 ≤ (0 : Int) ∧ (0 : Int) ≤ 15 ∧ 0 ≤ y ∧ y ≤ 15
      then 0 else 1)
    rw [if_neg (fun h => by omega)]
    decide
  · rw [MAZE_WIDTH_eq]
    show WALL_THRESHOLD ≤ (if 1 ≤ (16 : Int) ∧ (16 : Int) ≤ 15 ∧ 0 ≤ y ∧ y ≤ 15
      then 0 else 1)
    rw [if_neg (fun h => by omega)]
    decide

/-- In the empty maze the cell south of the goal is connected to the goal. -/
theorem emptyMaze_connected_78 : connected emptyMaze goal_cell ⟨7, 8⟩ :=
  ⟨1, goal_cell, rfl, by decide⟩

/-! ## The claims -/

/-- C1: BFS completeness of the flood fill.  After `floodfill(maze, goal)`
(level argument `0`, arbitrary pre-call array contents), the goal's entry is
`0`; every in-grid cell connected to the goal through walls with `exists`
strictly below `WALL_THRESHOLD` holds exactly its minimum hop count from the
goal; and every in-grid cell not so connected holds `MAX_VALUE`. -/
theorem claim_C1 (m : probabilistic_maze_t) (g : cell_t) (hg : inGrid g)
    (v0 : Int → Int → Int) (d0 : Int → Int → Bool) (c : cell_t) (hc : inGrid c) :
    (floodfill m g 0 v0 d0).values g.x g.y = 0 ∧
    (connected m g c → ∃ n : Nat, distIs m g c n ∧
      (floodfill m g 0 v0 d0).values c.x c.y = (n : Int)) ∧
    (∀ n : Nat, distIs m g c n → (floodfill m g 0 v0 d0).values c.x c.y = (n : Int)) ∧
    (¬ connected m g c → (floodfill m g 0 v0 d0).values c.x c.y = MAX_VALUE) := by
  have hgspec := floodfill_values_spec m g hg v0 d0 g hg
  have hcspec := floodfill_values_spec m g hg v0 d0 c hc
  refine ⟨?_, ?_, hcspec.1, hcspec.2⟩
  · have := hgspec.1 0 (distIs_goal m g)
    simpa using this
  · intro hcon
    obtain ⟨n, hn⟩ := distIs_of_connected hcon
    exact ⟨n, hn, hcspec.1 n hn⟩

set_option maxRecDepth 40000 in
/-- Witness for C1 at the empty maze, goal `(7,7)` and cell `(0,0)`. -/
theorem claim_C1_witness :
    inGrid goal_cell ∧ inGrid (⟨0, 0⟩ : cell_t) ∧
    ((floodfill emptyMaze goal_cell 0 z999 zfalse).values goal_cell.x goal_cell.y = 0 ∧
     (connected emptyMaze goal_cell ⟨0, 0⟩ → ∃ n : Nat,
       distIs emptyMaze goal_cell ⟨0, 0⟩ n ∧
       (floodfill emptyMaze goal_cell 0 z999 zfalse).values (⟨0, 0⟩ : cell_t).x
         (⟨0, 0⟩ : cell_t).y = (n : Int)) ∧
     (∀ n : Nat, distIs emptyMaze goal_cell ⟨0, 0⟩ n →
       (floodfill emptyMaze goal_cell 0 z999 zfalse).values (⟨0, 0⟩ : cell_t).x
         (⟨0, 0⟩ : cell_t).y = (n : Int)) ∧
     (¬ connected emptyMaze goal_cell ⟨0, 0⟩ →
       (floodfill emptyMaze goal_cell 0 z999 zfalse).values (⟨0, 0⟩ : cell_t).x
         (⟨0, 0⟩ : cell_t).y = MAX_VALUE)) :=
  ⟨by decide, by decide,
    claim_C1 emptyMaze goal_cell (by decide) z999 zfalse ⟨0, 0⟩ (by decide)⟩

/-- C2: monotone descent of the selector.  For a maze honoring the
border-wall contract, flooding from the goal and then selecting from a cell
`r` reachable from the goal yields `r` itself when `r` is the goal, and
otherwise an in-grid cell whose distance entry is exactly `values[r] - 1`.
`V` is the memory the selector indexes; it agrees with the flooded distance
field on the grid. -/
theorem claim_C2 (m : probabilistic_maze_t) (hb : bordersClosed m)
    (v0 : Int → Int → Int) (d0 : Int → Int → Bool) (V : Int → Int → Int)
    (hV : ∀ x y, inGridXY x y → V x y = (floodfill m goal_cell 0 v0 d0).values x y)
    (r : cell_t) (hr : inGrid r) (hcon : connected m goal_cell r) :
    (r = goal_cell → chooseNextCell V m r = r) ∧
    (r ≠ goal_cell →
      inGrid (chooseNextCell V m r) ∧
      (floodfill m goal_cell 0 v0 d0).values
          (chooseNextCell V m r).x (chooseNextCell V m r).y =
        (floodfill m goal_cell 0 v0 d0).values r.x r.y - 1) := by
  constructor
  · intro he
    subst he
    exact chooseNextCell_at_goal V m ⟨rfl, rfl⟩
  · intro hne
    exact chooseNextCell_descends m hb v0 d0 V hV r hr hcon hne

set_option maxRecDepth 40000 in
/-- Witness for C2 at the empty maze and the cell `(7,8)` south of the goal. -/
theorem claim_C2_witness :
    bordersClosed emptyMaze ∧ inGrid (⟨7, 8⟩ : cell_t) ∧
    connected emptyMaze goal_cell ⟨7, 8⟩ ∧
    (((⟨7, 8⟩ : cell_t) = goal_cell →
      chooseNextCell (floodfill emptyMaze goal_cell 0 z999 zfalse).values emptyMaze
        ⟨7, 8⟩ = ⟨7, 8⟩) ∧
     ((⟨7, 8⟩ : cell_t) ≠ goal_cell →
      inGrid (chooseNextCell (floodfill emptyMaze goal_cell 0 z999 zfalse).values
        emptyMaze ⟨7, 8⟩) ∧
      (floodfill emptyMaze goal_cell 0 z999 zfalse).values
          (chooseNextCell (floodfill emptyMaze goal_cell 0 z999 zfalse).values
            emptyMaze ⟨7, 8⟩).x
          (chooseNextCell (floodfill emptyMaze goal_cell 0 z999 zfalse).values
            emptyMaze ⟨7, 8⟩).y =
        (floodfill emptyMaze goal_cell 0 z999 zfalse).values (⟨7, 8⟩ : cell_t).x
          (⟨7, 8⟩ : cell_t).y - 1)) :=
  ⟨emptyMaze_bordersClosed, by decide, emptyMaze_connected_78,
    claim_C2 emptyMaze emptyMaze_bordersClosed z999 zfalse
      (floodfill emptyMaze goal_cell 0 z999 zfalse).values (fun _ _ _ => rfl)
      ⟨7, 8⟩ (by decide) emptyMaze_connected_78⟩

/-- C3 counterexample: a single `strategy` call with the pose at the goal
center (means `(1344, 1344)`) and the previous-selection state still at its
zero initialization does NOT raise the arrival LED: in the source the
`setHighLED(1)` call is nested inside the `prev_next_cell == next_cell`
check, so the first call at the goal reports no arrival. -/
theorem claim_C3_counterexample :
    (strategy ⟨1344, 0, 1344, 0, 0, 0⟩ emptyMaze ⟨0, 0, 0, 0, 0, 0⟩ ⟨0, 0⟩
      z999 zfalse).led1_set_high = false := by
  have hs := strategy_at_goal_center emptyMaze ⟨0, 0, 0, 0, 0, 0⟩ ⟨0, 0⟩ z999 zfalse
    ⟨1344, 0, 1344, 0, 0, 0⟩ rfl rfl
  have harr := hs.2.2.2
  cases hled : (strategy ⟨1344, 0, 1344, 0, 0, 0⟩ emptyMaze ⟨0, 0, 0, 0, 0, 0⟩
      ⟨0, 0⟩ z999 zfalse).led1_set_high
  · rfl
  · exact absurd (harr.1 hled) (by decide)

/-- C3 (amended): for any maze, a `strategy` call with the pose at the goal
cell's center returns the goal center as the target pose; the arrival signal
(`setHighLED(1)`) is raised on that call if and only if the previous call's
selection was already the goal cell — so it is set from the second
consecutive call at the goal onward, not on the first. -/
theorem claim_C3 (m : probabilistic_maze_t) (next_location : gaussian_location_t)
    (prev : cell_t) (v0 : Int → Int → Int) (d0 : Int → Int → Bool)
    (loc : gaussian_location_t) (hx : loc.x_mu = 1344) (hy : loc.y_mu = 1344) :
    (strategy loc m next_location prev v0 d0).next_location.x_mu = 1344 ∧
    (strategy loc m next_location prev v0 d0).next_location.y_mu = 1344 ∧
    (strategy loc m next_location prev v0 d0).prev_next_cell = goal_cell ∧
    ((strategy loc m next_location prev v0 d0).led1_set_high = true ↔
      prev = goal_cell) :=
  strategy_at_goal_center m next_location prev v0 d0 loc hx hy

/-- Witness for C3 (amended): second consecutive call at the goal center. -/
theorem claim_C3_witness :
    (⟨1344, 0, 1344, 0, 0, 0⟩ : gaussian_location_t).x_mu = 1344 ∧
    (⟨1344, 0, 1344, 0, 0, 0⟩ : gaussian_location_t).y_mu = 1344 ∧
    ((strategy ⟨1344, 0, 1344, 0, 0, 0⟩ emptyMaze ⟨0, 0, 0, 0, 0, 0⟩ goal_cell
        z999 zfalse).next_location.x_mu = 1344 ∧
     (strategy ⟨1344, 0, 1344, 0, 0, 0⟩ emptyMaze ⟨0, 0, 0, 0, 0, 0⟩ goal_cell
        z999 zfalse).next_location.y_mu = 1344 ∧
     (strategy ⟨1344, 0, 1344, 0, 0, 0⟩ emptyMaze ⟨0, 0, 0, 0, 0, 0⟩ goal_cell
        z999 zfalse).prev_next_cell = goal_cell ∧
     ((strategy ⟨1344, 0, 1344, 0, 0, 0⟩ emptyMaze ⟨0, 0, 0, 0, 0, 0⟩ goal_cell
        z999 zfalse).led1_set_high = true ↔ goal_cell = goal_cell)) :=
  ⟨rfl, rfl, claim_C3 emptyMaze ⟨0, 0, 0, 0, 0, 0⟩ goal_cell z999 zfalse
    ⟨1344, 0, 1344, 0, 0, 0⟩ rfl rfl⟩

/-- C4: `chooseNextCell` does NOT verify that a neighbor is in bounds before
indexing the distance array — each direction's `values` read is the left
operand of the `&&`, evaluated before the wall test and with no bounds check.
In the total embedding where indexing returns `Option`, the out-of-bounds
branch IS reached: at the border cell `(0,0)` (for every maze and every
array contents) the very first read `values[0][-1]` is out of bounds and the
checked selector returns `none`, refuting the claim that it always returns
`some`. -/
theorem claim_C4 (V : Int → Int → Int) (m : probabilistic_maze_t) :
    chooseNextCellChecked V m ⟨0, 0⟩ = none :=
  chooseNextCellChecked_border V m

/-- C5 counterexample: with every border wall open (probability `0`, below
`WALL_THRESHOLD`) and cell `(1,0)` otherwise sealed, the selector run from
the in-grid cell `(1,0)` over the row-major memory image of the flooded
`values` array returns the out-of-grid cell `(1,-1)`: the read
`values[1][-1]` aliases `values[0][15] = 15`, which beats `MAX_VALUE` through
the open north border wall. -/
theorem claim_C5_counterexample :
    inGrid (⟨1, 0⟩ : cell_t) ∧
    chooseNextCell (flatMemory (floodfill m5 goal_cell 0 z999 zfalse).values) m5
      ⟨1, 0⟩ = ⟨1, -1⟩ ∧
    ¬ inGrid (⟨1, -1⟩ : cell_t) :=
  ⟨by decide, chooseNextCell_m5, by decide⟩

/-- C5 (amended): for every maze whose border walls are at or above
`WALL_THRESHOLD` (the constructor's contract), every memory contents and
every in-grid robot cell, the cell returned by `chooseNextCell` is inside
the grid. -/
theorem claim_C5 (V : Int → Int → Int) (m : probabilistic_maze_t) (r : cell_t)
    (hb : bordersClosed m) (hr : inGrid r) : inGrid (chooseNextCell V m r) :=
  chooseNextCell_inGrid V m r hb hr

/-- Witness for C5 (amended) at the empty maze from `(0,0)`. -/
theorem claim_C5_witness :
    bordersClosed emptyMaze ∧ inGrid (⟨0, 0⟩ : cell_t) ∧
    inGrid (chooseNextCell z999 emptyMaze ⟨0, 0⟩) :=
  ⟨emptyMaze_bordersClosed, by decide,
    claim_C5 z999 emptyMaze ⟨0, 0⟩ emptyMaze_bordersClosed (by decide)⟩

/-- C6: coordinate round-trip.  For every in-grid cell, converting the cell
to a location with `convertCellToLocation` and back with
`convertLocationToCell` returns the same cell. -/
theorem claim_C6 (cx cy : Int) (h1 : 0 ≤ cx) (h2 : cx < MAZE_WIDTH)
    (h3 : 0 ≤ cy) (h4 : cy < MAZE_HEIGHT) (loc : gaussian_location_t) :
    convertLocationToCell (convertCellToLocation ⟨cx, cy⟩ loc) = ⟨cx, cy⟩ :=
  convert_roundtrip cx cy h1 h3 loc

/-- Witness for C6 at cell `(3, 5)`. -/
theorem claim_C6_witness :
    (0 : Int) ≤ 3 ∧ (3 : Int) < MAZE_WIDTH ∧ (0 : Int) ≤ 5 ∧
    (5 : Int) < MAZE_HEIGHT ∧
    convertLocationToCell (convertCellToLocation ⟨3, 5⟩ ⟨0, 0, 0, 0, 0, 0⟩) =
      ⟨3, 5⟩ :=
  ⟨by decide, by decide, by decide, by decide,
    claim_C6 3 5 (by decide) (by decide) (by decide) (by decide) ⟨0, 0, 0, 0, 0, 0⟩⟩

/-- C7: deterministic N-E-S-W tie-breaking.  First, in general, for every
ordered pair of directions in the scan order North, East, South, West —
N-E, N-S, N-W, E-S, E-W and S-W — whenever the earlier direction is open
and the later neighbor's `values` entry equals the earlier neighbor's, the
selector never returns the later neighbor (the earlier direction is scanned
first and the later direction's strict comparison fails).  Second,
concretely (scenario S1): in the empty maze with the pose at the center of
cell `(0,0)`, the flooded East and South neighbors both hold distance 13,
the selector returns cell `(1,0)` and the returned target pose has
`x = 264`, `y = 84`. -/
theorem claim_C7 :
    (∀ (V : Int → Int → Int) (m : probabilistic_maze_t) (r : cell_t),
      northWallExists m r.x r.y < WALL_THRESHOLD →
      V (r.x + 1) r.y = V r.x (r.y - 1) →
      chooseNextCell V m r ≠ ⟨r.x + 1, r.y⟩) ∧
    (∀ (V : Int → Int → Int) (m : probabilistic_maze_t) (r : cell_t),
      northWallExists m r.x r.y < WALL_THRESHOLD →
      V r.x (r.y + 1) = V r.x (r.y - 1) →
      chooseNextCell V m r ≠ ⟨r.x, r.y + 1⟩) ∧
    (∀ (V : Int → Int → Int) (m : probabilistic_maze_t) (r : cell_t),
      northWallExists m r.x r.y < WALL_THRESHOLD →
      V (r.x - 1) r.y = V r.x (r.y - 1) →
      chooseNextCell V m r ≠ ⟨r.x - 1, r.y⟩) ∧
    (∀ (V : Int → Int → Int) (m : probabilistic_maze_t) (r : cell_t),
      eastWallExists m r.x r.y < WALL_THRESHOLD →
      V r.x (r.y + 1) = V (r.x + 1) r.y →
      chooseNextCell V m r ≠ ⟨r.x, r.y + 1⟩) ∧
    (∀ (V : Int → Int → Int) (m : probabilistic_maze_t) (r : cell_t),
      eastWallExists m r.x r.y < WALL_THRESHOLD →
      V (r.x - 1) r.y = V (r.x + 1) r.y →
      chooseNextCell V m r ≠ ⟨r.x - 1, r.y⟩) ∧
    (∀ (V : Int → Int → Int) (m : probabilistic_maze_t) (r : cell_t),
      southWallExists m r.x r.y < WALL_THRESHOLD →
      V (r.x - 1) r.y = V r.x (r.y + 1) →
      chooseNextCell V m r ≠ ⟨r.x - 1, r.y⟩) ∧
    (∀ (v0 : Int → Int → Int) (d0 : Int → Int → Bool)
      (next_location : gaussian_location_t) (prev : cell_t)
      (loc : gaussian_location_t), loc.x_mu = 84 → loc.y_mu = 84 →
      (floodfill emptyMaze goal_cell 0 v0 d0).values 1 0 = 13 ∧
      (floodfill emptyMaze goal_cell 0 v0 d0).values 0 1 = 13 ∧
      (strategy loc emptyMaze next_location prev v0 d0).prev_next_cell = ⟨1, 0⟩ ∧
      (strategy loc emptyMaze next_location prev v0 d0).next_location.x_mu = 264 ∧
      (strategy loc emptyMaze next_location prev v0 d0).next_location.y_mu = 84) := by
  refine ⟨?_, ?_, ?_, ?_, ?_, ?_, ?_⟩
  · intro V m r h1 h2
    exact chooseNextCell_tie_NE V m r h1 h2
  · intro V m r h1 h2
    exact chooseNextCell_tie_NS V m r h1 h2
  · intro V m r h1 h2
    exact chooseNextCell_tie_NW V m r h1 h2
  · intro V m r h1 h2
    exact chooseNextCell_tie_ES V m r h1 h2
  · intro V m r h1 h2
    exact chooseNextCell_tie_EW V m r h1 h2
  · intro V m r h1 h2
    exact chooseNextCell_tie_SW V m r h1 h2
  · intro v0 d0 next_location prev loc hx hy
    obtain ⟨h10, h01, -⟩ := chooseNextCell_S1 v0 d0
    obtain ⟨hs1, hs2, hs3⟩ := strategy_S1 next_location prev v0 d0 loc hx hy
    exact ⟨h10, h01, hs1, hs2, hs3⟩

/-- Witness for C7: the six tie-break clauses at the uniform memory `z999`
from cell `(1,1)` in the empty maze (the north, east and south walls of
`(1,1)` are all open interior walls, and every `z999` entry equals every
other), and scenario S1 with a concrete pose. -/
theorem claim_C7_witness :
    northWallExists emptyMaze (⟨1, 1⟩ : cell_t).x (⟨1, 1⟩ : cell_t).y <
      WALL_THRESHOLD ∧
    eastWallExists emptyMaze (⟨1, 1⟩ : cell_t).x (⟨1, 1⟩ : cell_t).y <
      WALL_THRESHOLD ∧
    southWallExists emptyMaze (⟨1, 1⟩ : cell_t).x (⟨1, 1⟩ : cell_t).y <
      WALL_THRESHOLD ∧
    z999 ((⟨1, 1⟩ : cell_t).x + 1) (⟨1, 1⟩ : cell_t).y =
      z999 (⟨1, 1⟩ : cell_t).x ((⟨1, 1⟩ : cell_t).y - 1) ∧
    z999 (⟨1, 1⟩ : cell_t).x ((⟨1, 1⟩ : cell_t).y + 1) =
      z999 (⟨1, 1⟩ : cell_t).x ((⟨1, 1⟩ : cell_t).y - 1) ∧
    z999 ((⟨1, 1⟩ : cell_t).x - 1) (⟨1, 1⟩ : cell_t).y =
      z999 (⟨1, 1⟩ : cell_t).x ((⟨1, 1⟩ : cell_t).y - 1) ∧
    z999 (⟨1, 1⟩ : cell_t).x ((⟨1, 1⟩ : cell_t).y + 1) =
      z999 ((⟨1, 1⟩ : cell_t).x + 1) (⟨1, 1⟩ : cell_t).y ∧
    z999 ((⟨1, 1⟩ : cell_t).x - 1) (⟨1, 1⟩ : cell_t).y =
      z999 ((⟨1, 1⟩ : cell_t).x + 1) (⟨1, 1⟩ : cell_t).y ∧
    z999 ((⟨1, 1⟩ : cell_t).x - 1) (⟨1, 1⟩ : cell_t).y =
      z999 (⟨1, 1⟩ : cell_t).x ((⟨1, 1⟩ : cell_t).y + 1) ∧
    (⟨84, 0, 84, 0, 0, 0⟩ : gaussian_location_t).x_mu = 84 ∧
    (⟨84, 0, 84, 0, 0, 0⟩ : gaussian_location_t).y_mu = 84 ∧
    chooseNextCell z999 emptyMaze ⟨1, 1⟩ ≠
      ⟨(⟨1, 1⟩ : cell_t).x + 1, (⟨1, 1⟩ : cell_t).y⟩ ∧
    chooseNextCell z999 emptyMaze ⟨1, 1⟩ ≠
      ⟨(⟨1, 1⟩ : cell_t).x, (⟨1, 1⟩ : cell_t).y + 1⟩ ∧
    chooseNextCell z999 emptyMaze ⟨1, 1⟩ ≠
      ⟨(⟨1, 1⟩ : cell_t).x - 1, (⟨1, 1⟩ : cell_t).y⟩ ∧
    ((floodfill emptyMaze goal_cell 0 z999 zfalse).values 1 0 = 13 ∧
     (floodfill emptyMaze goal_cell 0 z999 zfalse).values 0 1 = 13 ∧
     (strategy ⟨84, 0, 84, 0, 0, 0⟩ emptyMaze ⟨0, 0, 0, 0, 0, 0⟩ ⟨0, 0⟩ z999
        zfalse).prev_next_cell = ⟨1, 0⟩ ∧
     (strategy ⟨84, 0, 84, 0, 0, 0⟩ emptyMaze ⟨0, 0, 0, 0, 0, 0⟩ ⟨0, 0⟩ z999
        zfalse).next_location.x_mu = 264 ∧
     (strategy ⟨84, 0, 84, 0, 0, 0⟩ emptyMaze ⟨0, 0, 0, 0, 0, 0⟩ ⟨0, 0⟩ z999
        zfalse).next_location.y_mu = 84) :=
  ⟨by decide, by decide, by decide, rfl, rfl, rfl, rfl, rfl, rfl, rfl, rfl,
    claim_C7.1 z999 emptyMaze ⟨1, 1⟩ (by decide) rfl,
    claim_C7.2.1 z999 emptyMaze ⟨1, 1⟩ (by decide) rfl,
    claim_C7.2.2.2.2.1 z999 emptyMaze ⟨1, 1⟩ (by decide) rfl,
    claim_C7.2.2.2.2.2.2 z999 zfalse ⟨0, 0, 0, 0, 0, 0⟩ ⟨0, 0⟩
      ⟨84, 0, 84, 0, 0, 0⟩ rfl rfl⟩

/-- C8: threshold-equality semantics.  First, changing any set of walls in
ways that keep each wall on the same side of `WALL_THRESHOLD` — in
particular, replacing a wall at exactly `WALL_THRESHOLD` by a certainly
present wall — changes neither the flooded distance field nor any selector
decision.  Second, the flood fill never traverses a wall at or above the
threshold (its neighbor check is a no-op).  Third, the selector never
returns the neighbor behind a wall at or above the threshold.  Together: a
wall is treated as open exactly when `exists` is strictly below
`WALL_THRESHOLD`, and equality means present. -/
theorem claim_C8 :
    (∀ m1 m2 : probabilistic_maze_t,
      (∀ x y, m1.hWalls x y = m2.hWalls x y ∨
        (WALL_THRESHOLD ≤ m1.hWalls x y ∧ WALL_THRESHOLD ≤ m2.hWalls x y)) →
      (∀ x y, m1.vWalls x y = m2.vWalls x y ∨
        (WALL_THRESHOLD ≤ m1.vWalls x y ∧ WALL_THRESHOLD ≤ m2.vWalls x y)) →
      (∀ (g : cell_t) (k : Int) (v0 : Int → Int → Int) (d0 : Int → Int → Bool)
        (x y : Int), inGridXY x y →
        (floodfill m1 g k v0 d0).values x y = (floodfill m2 g k v0 d0).values x y) ∧
      (∀ (V : Int → Int → Int) (r : cell_t),
        chooseNextCell V m1 r = chooseNextCell V m2 r)) ∧
    (∀ (s : FloodState) (nb : cell_t) (w : ℚ), WALL_THRESHOLD ≤ w →
      checkNeighbor s nb w = s) ∧
    (∀ (V : Int → Int → Int) (m : probabilistic_maze_t) (r : cell_t),
      (WALL_THRESHOLD ≤ northWallExists m r.x r.y →
        chooseNextCell V m r ≠ ⟨r.x, r.y - 1⟩) ∧
      (WALL_THRESHOLD ≤ eastWallExists m r.x r.y →
        chooseNextCell V m r ≠ ⟨r.x + 1, r.y⟩) ∧
      (WALL_THRESHOLD ≤ southWallExists m r.x r.y →
        chooseNextCell V m r ≠ ⟨r.x, r.y + 1⟩) ∧
      (WALL_THRESHOLD ≤ westWallExists m r.x r.y →
        chooseNextCell V m r ≠ ⟨r.x - 1, r.y⟩)) := by
  refine ⟨?_, ?_, ?_⟩
  · intro m1 m2 hh hv
    have hoiff : wallsOpenIff m1 m2 := by
      intro x y
      constructor
      · rcases hh x y with h | h
        · rw [h]
        · exact iff_of_false (not_lt.2 h.1) (not_lt.2 h.2)
      · rcases hv x y with h | h
        · rw [h]
        · exact iff_of_false (not_lt.2 h.1) (not_lt.2 h.2)
    exact ⟨fun g k v0 d0 x y hxy =>
        (floodfill_agree hoiff g k v0 v0 d0 d0).2.2.2.1 x y hxy,
      fun V r => chooseNextCell_walls_congr V hoiff r⟩
  · intro s nb w hw
    exact checkNeighbor_skip (fun hc => absurd hc.2 (not_lt.2 hw))
  · intro V m r
    exact ⟨chooseNextCell_closed_north V m r, chooseNextCell_closed_east V m r,
      chooseNextCell_closed_south V m r, chooseNextCell_closed_west V m r⟩

/-- A maze with the wall north of `(3,3)` at exactly `WALL_THRESHOLD` and
every other wall as in the empty maze. -/
def mThr : probabilistic_maze_t :=
  { hWalls := fun x y => if x = 3 ∧ y = 3 then WALL_THRESHOLD
      else emptyMaze.hWalls x y,
    vWalls := emptyMaze.vWalls }

/-- The same maze with that wall certainly present. -/
def mOne : probabilistic_maze_t :=
  { hWalls := fun x y => if x = 3 ∧ y = 3 then 1 else emptyMaze.hWalls x y,
    vWalls := emptyMaze.vWalls }

/-- Witness for C8: the wall north of `(3,3)` at exactly `WALL_THRESHOLD`
behaves like a present wall, a threshold-valued wall blocks a neighbor
check, and the selector refuses a direction with a threshold-valued wall. -/
theorem claim_C8_witness :
    (∀ x y, mOne.hWalls x y = mThr.hWalls x y ∨
      (WALL_THRESHOLD ≤ mOne.hWalls x y ∧ WALL_THRESHOLD ≤ mThr.hWalls x y)) ∧
    (∀ x y, mOne.vWalls x y = mThr.vWalls x y ∨
      (WALL_THRESHOLD ≤ mOne.vWalls x y ∧ WALL_THRESHOLD ≤ mThr.vWalls x y)) ∧
    WALL_THRESHOLD ≤ WALL_THRESHOLD ∧
    WALL_THRESHOLD ≤ northWallExists emptyMaze (⟨0, 0⟩ : cell_t).x
      (⟨0, 0⟩ : cell_t).y ∧
    (floodfill mOne goal_cell 0 z999 zfalse).values 3 3 =
      (floodfill mThr goal_cell 0 z999 zfalse).values 3 3 ∧
    chooseNextCell z999 mOne ⟨3, 3⟩ = chooseNextCell z999 mThr ⟨3, 3⟩ ∧
    checkNeighbor ⟨z999, zfalse, [], [], 0⟩ ⟨5, 5⟩ WALL_THRESHOLD =
      ⟨z999, zfalse, [], [], 0⟩ ∧
    chooseNextCell z999 emptyMaze ⟨0, 0⟩ ≠
      ⟨(⟨0, 0⟩ : cell_t).x, (⟨0, 0⟩ : cell_t).y - 1⟩ := by
  have hh : ∀ x y, mOne.hWalls x y = mThr.hWalls x y ∨
      (WALL_THRESHOLD ≤ mOne.hWalls x y ∧ WALL_THRESHOLD ≤ mThr.hWalls x y) := by
    intro x y
    by_cases h : x = 3 ∧ y = 3
    · refine Or.inr ⟨?_, ?_⟩
      · show WALL_THRESHOLD ≤ (if x = 3 ∧ y = 3 then (1 : ℚ)
          else emptyMaze.hWalls x y)
        rw [if_pos h]
        decide
      · show WALL_THRESHOLD ≤ (if x = 3 ∧ y = 3 then WALL_THRESHOLD
          else emptyMaze.hWalls x y)
        rw [if_pos h]
    · refine Or.inl ?_
      show (if x = 3 ∧ y = 3 then (1 : ℚ) else emptyMaze.hWalls x y) =
        (if x = 3 ∧ y = 3 then WALL_THRESHOLD else emptyMaze.hWalls x y)
      rw [if_neg h, if_neg h]
  have hv : ∀ x y, mOne.vWalls x y = mThr.vWalls x y ∨
      (WALL_THRESHOLD ≤ mOne.vWalls x y ∧ WALL_THRESHOLD ≤ mThr.vWalls x y) :=
    fun x y => Or.inl rfl
  exact ⟨hh, hv, le_refl _, by decide,
    (claim_C8.1 mOne mThr hh hv).1 goal_cell 0 z999 zfalse 3 3 (by decide),
    (claim_C8.1 mOne mThr hh hv).2 z999 ⟨3, 3⟩,
    claim_C8.2.1 ⟨z999, zfalse, [], [], 0⟩ ⟨5, 5⟩ WALL_THRESHOLD (le_refl _),
    (claim_C8.2.2 z999 emptyMaze ⟨0, 0⟩).1 (by decide)⟩

/-- C9: flood idempotence and prior-state independence.  The in-grid
distance field produced by `floodfill` does not depend on the pre-call
contents of the `values` and `discovered` arrays (they are reset before the
search), and in particular flooding twice in a row — feeding the first
call's arrays into the second — reproduces the same distance field. -/
theorem claim_C9 (m : probabilistic_maze_t) (g : cell_t) (k : Int)
    (v0 v1 : Int → Int → Int) (d0 d1 : Int → Int → Bool) (x y : Int)
    (h : inGridXY x y) :
    (floodfill m g k v0 d0).values x y = (floodfill m g k v1 d1).values x y ∧
    (floodfill m g k (floodfill m g k v0 d0).values
        (floodfill m g k v0 d0).discovered).values x y =
      (floodfill m g k v0 d0).values x y :=
  ⟨(floodfill_agree (wallsOpenIff_refl m) g k v0 v1 d0 d1).2.2.2.1 x y h,
   (floodfill_agree (wallsOpenIff_refl m) g k (floodfill m g k v0 d0).values v0
     (floodfill m g k v0 d0).discovered d0).2.2.2.1 x y h⟩

set_option maxRecDepth 40000 in
/-- Witness for C9 at the empty maze and entry `(0, 0)`. -/
theorem claim_C9_witness :
    inGridXY 0 0 ∧
    ((floodfill emptyMaze goal_cell 0 z999 zfalse).values 0 0 =
      (floodfill emptyMaze goal_cell 0 (fun _ _ => 0) (fun _ _ => true)).values 0 0 ∧
     (floodfill emptyMaze goal_cell 0
        (floodfill emptyMaze goal_cell 0 z999 zfalse).values
        (floodfill emptyMaze goal_cell 0 z999 zfalse).discovered).values 0 0 =
      (floodfill emptyMaze goal_cell 0 z999 zfalse).values 0 0) :=
  ⟨by decide, claim_C9 emptyMaze goal_cell 0 z999 (fun _ _ => 0) zfalse
    (fun _ _ => true) 0 0 (by decide)⟩

/-- C10: frame effect of the orchestrator on its output pose.  A `strategy`
call writes only the `x_mu` and `y_mu` fields of the output location; the
`theta` mean and every variance field keep exactly their pre-call values. -/
theorem claim_C10 (robot_location : gaussian_location_t)
    (maze_state : probabilistic_maze_t) (next_location : gaussian_location_t)
    (prev_next_cell0 : cell_t) (values0 : Int → Int → Int)
    (discovered0 : Int → Int → Bool) :
    (strategy robot_location maze_state next_location prev_next_cell0 values0
        discovered0).next_location.theta_mu = next_location.theta_mu ∧
    (strategy robot_location maze_state next_location prev_next_cell0 values0
        discovered0).next_location.theta_sigma2 = next_location.theta_sigma2 ∧
    (strategy robot_location maze_state next_location prev_next_cell0 values0
        discovered0).next_location.x_sigma2 = next_location.x_sigma2 ∧
    (strategy robot_location maze_state next_location prev_next_cell0 values0
        discovered0).next_location.y_sigma2 = next_location.y_sigma2 :=
  strategy_writes_only_xy robot_location maze_state next_location prev_next_cell0
    values0 discovered0

end Micromouse
